import Mathlib

/-!
Verification development for the k8s-duplicator reconciliation controller
(`internal/controller/secret_controller.go`).

The cluster object store is modelled as a list of secrets keyed by
`(namespace, name)`.  Every controller function is translated directly from
the Go source; API calls (Get/Create/Update/Delete and the two Lists) are
executed against the store, with an environment `Env` that can inject an
error into any call (indexed by call number) to model transient API-server
failures.  The pure environment `pureEnv` injects nothing, giving the
deterministic semantics of a cycle running against a consistent store.
-/

namespace Duplicator

/-- Typed API error signals (`errors.IsNotFound`, `errors.IsAlreadyExists`,
and any other error). -/
inductive ApiErr where
  | notFound
  | alreadyExists
  | otherErr
deriving DecidableEq

/-- A secret: identity `(nspace, name)`, opaque payload `data`
(`map[string][]byte`, modelled as an association list snapshot),
a `type` tag and an annotation map (association list). -/
structure Secret where
  nspace : String
  name : String
  data : List (String × String)
  type : String
  anns : List (String × String)
deriving DecidableEq

/-- A namespace: name and lifecycle phase (`corev1.NamespaceTerminating`
is the string "Terminating"). -/
structure Namespace where
  name : String
  phase : String
deriving DecidableEq

/-- Modelled from the spec: the two annotation-key constants
(`duplicatorDuplicateAnnotationKey`, `duplicatorFromAnnotationKey`) are
declared in a repository file that is not under src/; spec section 6 names
them `duplicate` and `source`.  Only their distinctness matters. -/
def duplicatorDuplicateAnnotationKey : String := "duplicate"

/-- Modelled from the spec: see `duplicatorDuplicateAnnotationKey`. -/
def duplicatorFromAnnotationKey : String := "source"

/-- Go map lookup `m[k]` returning `ok`: first matching key of the
association list. -/
def lookupAnn (anns : List (String × String)) (k : String) : Option String :=
  match anns.find? (fun p => p.fst == k) with
  | some p => some p.snd
  | none => none

/-- `isSecretDuplicatorSource`: annotation `duplicate` present with the
exact value "true". -/
def isSecretDuplicatorSource (secret : Secret) : Bool :=
  match lookupAnn secret.anns duplicatorDuplicateAnnotationKey with
  | some value => value == "true"
  | none => false

/-- Models Go `strings.Split(v, sep)` for the single-character separator
used by the controller: splits at every occurrence of `chr`. -/
def splitParts (chr : Char) : List Char → List (List Char)
  | [] => [[]]
  | c :: rest =>
    match splitParts chr rest with
    | [] => [[c]]
    | h :: t => if c == chr then [] :: h :: t else (c :: h) :: t

/-- `isSecretDuplicated`: annotation `source` present and
`strings.Split(value, "/")` has exactly two parts. -/
def isSecretDuplicated (secret : Secret) : Bool :=
  match lookupAnn secret.anns duplicatorFromAnnotationKey with
  | some value => (splitParts (Char.ofNat 47) value.toList).length == 2
  | none => false

/-- `client.ObjectKey{Namespace, Name}.String()`: "namespace/name". -/
def objectKeyString (nspace name : String) : String :=
  nspace ++ "/" ++ name

/-- `newDuplicateSecret`: the mirror builder — name and payload and type
from the source, target namespace, annotation map holding exactly the
`source` provenance key. -/
def newDuplicateSecret (source : Secret) (nspace : String) : Secret :=
  { nspace := nspace
    name := source.name
    data := source.data
    type := source.type
    anns := [(duplicatorFromAnnotationKey, objectKeyString source.nspace source.name)] }

/-- `findAllSourceSecrets`: filter the listing by the source predicate. -/
def findAllSourceSecrets (allSecrets : List Secret) : List Secret :=
  allSecrets.filter isSecretDuplicatorSource

/-- `findAllDuplicateSecrets`: filter the listing by the duplicate
predicate. -/
def findAllDuplicateSecrets (allSecrets : List Secret) : List Secret :=
  allSecrets.filter isSecretDuplicated

/-- `findNonTerminatingNamespaces`: drop namespaces whose phase is
Terminating, preserving order. -/
def findNonTerminatingNamespaces (allNamespaces : List Namespace) : List Namespace :=
  allNamespaces.filter (fun ns => ns.phase != "Terminating")

/-! ### The object store and its operation semantics -/

abbrev Store := List Secret

/-- Does `s` occupy the slot `(nspace, name)`? -/
def secretHasKey (s : Secret) (nspace name : String) : Bool :=
  s.nspace == nspace && s.name == name

/-- The occupant of a slot (first match in the listing). -/
def lookupSecret (st : Store) (nspace name : String) : Option Secret :=
  st.find? (fun s => secretHasKey s nspace name)

/-- Get: NotFound when the slot is empty. -/
def semGet (st : Store) (nspace name : String) : Option ApiErr :=
  match lookupSecret st nspace name with
  | some _ => none
  | none => some ApiErr.notFound

/-- Create: AlreadyExists when the slot is occupied, else insert. -/
def semCreate (st : Store) (s : Secret) : Store × Option ApiErr :=
  match lookupSecret st s.nspace s.name with
  | some _ => (st, some ApiErr.alreadyExists)
  | none => (st ++ [s], none)

/-- Update: replace the occupant of the slot, NotFound when absent. -/
def semUpdate (st : Store) (s : Secret) : Store × Option ApiErr :=
  match lookupSecret st s.nspace s.name with
  | some _ => (st.map (fun t => if secretHasKey t s.nspace s.name then s else t), none)
  | none => (st, some ApiErr.notFound)

/-- Delete: remove the occupant of the slot, NotFound when absent. -/
def semDelete (st : Store) (nspace name : String) : Store × Option ApiErr :=
  match lookupSecret st nspace name with
  | some _ => (st.filter (fun t => !(secretHasKey t nspace name)), none)
  | none => (st, some ApiErr.notFound)

/-- Fault environment: call number to optionally injected error. -/
abbrev Env := Nat → Option ApiErr

/-- The no-fault environment: every call gets its store-semantic result. -/
def pureEnv : Env := fun _ => none

/-- An environment that fails the very first API call (the secret List)
and nothing else. -/
def failFirstEnv : Env := fun n => if n = 0 then some ApiErr.otherErr else none

/-- A Get, with possible injected failure. -/
def envGet (env : Env) (n : Nat) (st : Store) (nspace name : String) : Option ApiErr :=
  match env n with
  | some e => some e
  | none => semGet st nspace name

/-- A Create, with possible injected failure. -/
def envCreate (env : Env) (n : Nat) (st : Store) (s : Secret) : Store × Option ApiErr :=
  match env n with
  | some e => (st, some e)
  | none => semCreate st s

/-- An Update, with possible injected failure. -/
def envUpdate (env : Env) (n : Nat) (st : Store) (s : Secret) : Store × Option ApiErr :=
  match env n with
  | some e => (st, some e)
  | none => semUpdate st s

/-- A Delete, with possible injected failure. -/
def envDelete (env : Env) (n : Nat) (st : Store) (nspace name : String) : Store × Option ApiErr :=
  match env n with
  | some e => (st, some e)
  | none => semDelete st nspace name

/-! ### The convergence engine -/

/-- An operation issued against the object store. -/
inductive Op where
  | listSecrets
  | listNamespaces
  | get (nspace name : String)
  | create (s : Secret)
  | update (s : Secret)
  | delete (nspace name : String)
deriving DecidableEq

/-- One log entry: the issued operation and the result it got. -/
abbrev Entry := Op × Option ApiErr

/-- Outcome of one pass: final store, next call number, the log of issued
operations, and the `retryableError` value. -/
structure PassOut where
  store : Store
  n : Nat
  log : List Entry
  err : Option ApiErr
deriving DecidableEq

/-- Inner loop of `reconcileSources` for one source secret: for each
namespace, Get `(namespace.Name, source.Name)`; on NotFound build the
duplicate and Create it (AlreadyExists benign); any other Get or Create
error becomes the retryable error; processing continues. -/
def reconcileSourcesOne (env : Env) (source : Secret) :
    List Namespace → Store → Nat → Option ApiErr → PassOut
  | [], st, n, re => ⟨st, n, [], re⟩
  | ns :: rest, st, n, re =>
    match envGet env n st ns.name source.name with
    | none =>
      let r := reconcileSourcesOne env source rest st (n + 1) re
      { r with log := (Op.get ns.name source.name, none) :: r.log }
    | some ApiErr.notFound =>
      let dup := newDuplicateSecret source ns.name
      let cres := envCreate env (n + 1) st dup
      let re2 := match cres.2 with
        | none => re
        | some ApiErr.alreadyExists => re
        | some e => some e
      let r := reconcileSourcesOne env source rest cres.1 (n + 2) re2
      { r with log := (Op.get ns.name source.name, some ApiErr.notFound) ::
          (Op.create dup, cres.2) :: r.log }
    | some e =>
      let r := reconcileSourcesOne env source rest st (n + 1) (some e)
      { r with log := (Op.get ns.name source.name, some e) :: r.log }

/-- `reconcileSources`: outer loop over all source secrets. -/
def reconcileSources (env : Env) (allNamespaces : List Namespace) :
    List Secret → Store → Nat → Option ApiErr → PassOut
  | [], st, n, re => ⟨st, n, [], re⟩
  | s :: rest, st, n, re =>
    let r1 := reconcileSourcesOne env s allNamespaces st n re
    let r2 := reconcileSources env allNamespaces rest r1.store r1.n r1.err
    { r2 with log := r1.log ++ r2.log }

/-- The `sourceSecretsMap` lookup: Go map insertion (later sources with the
same key overwrite earlier ones), so look from the back. -/
def sourceSecretsLookup (sources : List Secret) (k : String) : Option Secret :=
  sources.reverse.find? (fun s => objectKeyString s.nspace s.name == k)

/-- `reconcileDuplicates`: for each listed duplicate, resolve its `source`
annotation in the source map; delete it when no live source matches
(NotFound benign), update it with a rebuilt mirror when payloads differ. -/
def reconcileDuplicates (env : Env) (sources : List Secret) :
    List Secret → Store → Nat → Option ApiErr → PassOut
  | [], st, n, re => ⟨st, n, [], re⟩
  | dup :: rest, st, n, re =>
    let fromAnn := (lookupAnn dup.anns duplicatorFromAnnotationKey).getD ""
    match sourceSecretsLookup sources fromAnn with
    | none =>
      let dres := envDelete env n st dup.nspace dup.name
      let re2 := match dres.2 with
        | none => re
        | some ApiErr.notFound => re
        | some e => some e
      let r := reconcileDuplicates env sources rest dres.1 (n + 1) re2
      { r with log := (Op.delete dup.nspace dup.name, dres.2) :: r.log }
    | some sourceSecret =>
      if dup.data == sourceSecret.data then
        reconcileDuplicates env sources rest st n re
      else
        let updated := newDuplicateSecret sourceSecret dup.nspace
        let ures := envUpdate env n st updated
        let re2 := match ures.2 with
          | none => re
          | some e => some e
        let r := reconcileDuplicates env sources rest ures.1 (n + 1) re2
        { r with log := (Op.update updated, ures.2) :: r.log }

/-- Result of one full reconciliation cycle. -/
structure CycleResult where
  store : Store
  log : List Entry
  err : Bool
deriving DecidableEq

/-- `Reconcile`: list all secrets (call 0) and namespaces (call 1) — a
failed listing aborts the cycle immediately with an error; classify;
run the source pass then the duplicate pass; report a non-nil retryable
error when either pass recorded one. -/
def Reconcile (env : Env) (store0 : Store) (nss : List Namespace) : CycleResult :=
  match env 0 with
  | some e => ⟨store0, [(Op.listSecrets, some e)], true⟩
  | none =>
    match env 1 with
    | some e => ⟨store0, [(Op.listSecrets, none), (Op.listNamespaces, some e)], true⟩
    | none =>
      let allSourceSecrets := findAllSourceSecrets store0
      let allDuplicateSecrets := findAllDuplicateSecrets store0
      let nonTerminating := findNonTerminatingNamespaces nss
      let r1 := reconcileSources env nonTerminating allSourceSecrets store0 2 none
      let r2 := reconcileDuplicates env allSourceSecrets allDuplicateSecrets r1.store r1.n none
      let retryableError := match r2.err with
        | some e => some e
        | none => r1.err
      ⟨r2.store, (Op.listSecrets, none) :: (Op.listNamespaces, none) :: (r1.log ++ r2.log),
        retryableError.isSome⟩

/-- One cycle against a consistent store with no injected faults. -/
def runCycle (store0 : Store) (nss : List Namespace) : CycleResult :=
  Reconcile pureEnv store0 nss

/-! ### Observations on logs -/

/-- Write operations are create, update and delete. -/
def isWriteOp : Op → Bool
  | Op.create _ => true
  | Op.update _ => true
  | Op.delete _ _ => true
  | _ => false

/-- Does an operation target the slot `(nspace, name)`? -/
def opTargets (op : Op) (nspace name : String) : Bool :=
  match op with
  | Op.get a b => a == nspace && b == name
  | Op.create s => secretHasKey s nspace name
  | Op.update s => secretHasKey s nspace name
  | Op.delete a b => a == nspace && b == name
  | _ => false

/-- Does the log contain a write operation against the slot? -/
def logHasWriteAt (log : List Entry) (nspace name : String) : Bool :=
  log.any (fun e => isWriteOp e.1 && opTargets e.1 nspace name)

/-- Number of write operations in a log. -/
def writeCount (log : List Entry) : Nat :=
  (log.filter (fun e => isWriteOp e.1)).length

/-- Is a logged result a failure the cycle reports?  NotFound on a Get
feeds the create path; AlreadyExists on a Create and NotFound on a Delete
are the benign races the code swallows; every other non-nil result is
recorded into the retryable error. -/
def nonBenign : Entry → Bool
  | (_, none) => false
  | (Op.get _ _, some e) =>
    match e with
    | ApiErr.notFound => false
    | _ => true
  | (Op.create _, some e) =>
    match e with
    | ApiErr.alreadyExists => false
    | _ => true
  | (Op.update _, some _) => true
  | (Op.delete _ _, some e) =>
    match e with
    | ApiErr.notFound => false
    | _ => true
  | (Op.listSecrets, some _) => true
  | (Op.listNamespaces, some _) => true

/-- The `source` annotation string of a listed duplicate (`duplicate.Annotations[duplicatorFromAnnotationKey]`,
Go map indexing yields "" when absent). -/
def fromAnnStr (d : Secret) : String :=
  (lookupAnn d.anns duplicatorFromAnnotationKey).getD ""

/-! ### Concrete cluster objects used by witnesses and counterexamples -/

/-- A sample payload. -/
def dataA : List (String × String) := [("foo", "bar")]

/-- A second, different payload. -/
def dataB : List (String × String) := [("x", "y")]

/-- A third payload. -/
def dataC : List (String × String) := [("p", "q")]

/-- An active namespace named n1. -/
def nsN1 : Namespace := ⟨"n1", "Active"⟩

/-- An active namespace named n2. -/
def nsN2 : Namespace := ⟨"n2", "Active"⟩

/-- A terminating namespace. -/
def nsTerm : Namespace := ⟨"tns", "Terminating"⟩

/-- A source secret at (n1, s). -/
def srcS : Secret := ⟨"n1", "s", dataA, "Opaque", [(duplicatorDuplicateAnnotationKey, "true")]⟩

/-- An unrelated secret occupying (n2, s): no annotations at all. -/
def unrelatedU : Secret := ⟨"n2", "s", dataB, "Opaque", []⟩

/-- A name-mismatched duplicate: lives at (n2, d) but references source n1/s. -/
def mismatchD : Secret := ⟨"n2", "d", dataC, "Opaque", [(duplicatorFromAnnotationKey, "n1/s")]⟩

/-- An orphaned duplicate occupying (n2, s): references the dead source x/y. -/
def orphanD : Secret := ⟨"n2", "s", dataB, "Opaque", [(duplicatorFromAnnotationKey, "x/y")]⟩

/-- A duplicate of srcS at (n2, s) whose payload matches but whose type differs. -/
def typeDiffD : Secret := ⟨"n2", "s", dataA, "kubernetes.io/tls", [(duplicatorFromAnnotationKey, "n1/s")]⟩

/-- A secret with a malformed source annotation (no slash) at (n2, s). -/
def malformedM : Secret := ⟨"n2", "s", dataB, "Opaque", [(duplicatorFromAnnotationKey, "noslash")]⟩

/-- A duplicate of srcS at (n2, s) with divergent payload. -/
def divergentD : Secret := ⟨"n2", "s", dataB, "Opaque", [(duplicatorFromAnnotationKey, "n1/s")]⟩

/-- A dual-role secret at (n2, x): marked as a source and carrying a
well-formed source annotation referencing n1/s, with a name that differs
from the referenced source's name. -/
def dualX : Secret := ⟨"n2", "x", dataB, "Opaque",
  [(duplicatorDuplicateAnnotationKey, "true"), (duplicatorFromAnnotationKey, "n1/s")]⟩

/-- A dual-role secret at (n2, s): marked as a source and carrying a
well-formed source annotation referencing n1/s, named like the source. -/
def dualS : Secret := ⟨"n2", "s", dataB, "Opaque",
  [(duplicatorDuplicateAnnotationKey, "true"), (duplicatorFromAnnotationKey, "n1/s")]⟩

/-- A second source at (n1, d). -/
def srcD : Secret := ⟨"n1", "d", dataA, "Opaque", [(duplicatorDuplicateAnnotationKey, "true")]⟩

/-- An orphaned duplicate living inside the terminating namespace. -/
def orphanTermD : Secret := ⟨"tns", "od", dataB, "Opaque", [(duplicatorFromAnnotationKey, "x/y")]⟩

/-- A duplicate of srcS living inside the terminating namespace with
divergent payload. -/
def divergentTermD : Secret :=
  ⟨"tns", "s", dataB, "Opaque", [(duplicatorFromAnnotationKey, "n1/s")]⟩

/-- A duplicate at (n2, e) referencing source n1/d with divergent payload;
its update redirects onto slot (n2, d). -/
def redirectE : Secret := ⟨"n2", "e", dataB, "Opaque", [(duplicatorFromAnnotationKey, "n1/d")]⟩

/-- Distinct `(namespace, name)` identities: the well-formedness of a
cluster listing. -/
def wfStore (st : Store) : Prop :=
  st.Pairwise (fun a b => (a.nspace, a.name) ≠ (b.nspace, b.name))

instance (st : Store) : Decidable (wfStore st) := by
  unfold wfStore
  infer_instance

/-! ### Basic store lemmas -/

theorem secretHasKey_self (s : Secret) : secretHasKey s s.nspace s.name = true := by
  simp [secretHasKey]

theorem secretHasKey_iff {s : Secret} {a b : String} :
    secretHasKey s a b = true ↔ s.nspace = a ∧ s.name = b := by
  simp [secretHasKey]

theorem secretHasKey_false {s : Secret} {a b : String}
    (h : ¬(s.nspace = a ∧ s.name = b)) : secretHasKey s a b = false := by
  rcases hk : secretHasKey s a b
  · rfl
  · exact absurd (secretHasKey_iff.mp hk) h

theorem lookupSecret_cons (t : Secret) (rest : Store) (a b : String) :
    lookupSecret (t :: rest) a b =
      if secretHasKey t a b then some t else lookupSecret rest a b := by
  rcases h : secretHasKey t a b
  · simp [lookupSecret, List.find?_cons, h]
  · simp [lookupSecret, List.find?_cons, h]

theorem lookupSecret_append_left {st : Store} {a b : String} {o : Secret} (d : Store)
    (h : lookupSecret st a b = some o) : lookupSecret (st ++ d) a b = some o := by
  unfold lookupSecret at h ⊢
  rw [List.find?_append, h]
  rfl

theorem lookupSecret_append_isSome {st : Store} (d : Store) {a b : String}
    (h : (lookupSecret st a b).isSome) : (lookupSecret (st ++ d) a b).isSome := by
  rcases ho : lookupSecret st a b with _ | o
  · rw [ho] at h; cases h
  · rw [lookupSecret_append_left d ho]; rfl

theorem lookupSecret_append_none {st d : Store} {a b : String}
    (h : lookupSecret st a b = none) (hd : ∀ x ∈ d, secretHasKey x a b = false) :
    lookupSecret (st ++ d) a b = none := by
  have h2 : List.find? (fun s => secretHasKey s a b) d = none := by
    rw [List.find?_eq_none]
    intro x hx
    simp [hd x hx]
  unfold lookupSecret at h ⊢
  rw [List.find?_append, h, h2]
  rfl

theorem lookupSecret_isSome_of_mem {st : Store} {d : Secret} {a b : String} (hm : d ∈ st)
    (ha : d.nspace = a) (hb : d.name = b) : (lookupSecret st a b).isSome := by
  unfold lookupSecret
  rw [List.find?_isSome]
  exact ⟨d, hm, by simp [secretHasKey, ha, hb]⟩

theorem lookupSecret_mem {st : Store} {a b : String} {o : Secret}
    (h : lookupSecret st a b = some o) : o ∈ st ∧ o.nspace = a ∧ o.name = b := by
  unfold lookupSecret at h
  refine ⟨List.mem_of_find?_eq_some h, ?_⟩
  have hp := List.find?_some h
  exact secretHasKey_iff.mp hp

theorem lookupSecret_of_mem_wf {st : Store} {u : Secret} (hwf : wfStore st) (hm : u ∈ st) :
    lookupSecret st u.nspace u.name = some u := by
  induction st with
  | nil => cases hm
  | cons t rest ih =>
    rcases List.pairwise_cons.mp hwf with ⟨hhead, htail⟩
    rcases List.mem_cons.mp hm with rfl | hm2
    · rw [lookupSecret_cons, if_pos (secretHasKey_self u)]
    · have hne : (t.nspace, t.name) ≠ (u.nspace, u.name) := hhead u hm2
      have hkey : secretHasKey t u.nspace u.name = false := by
        apply secretHasKey_false
        intro hc
        exact hne (by rw [hc.1, hc.2])
      rw [lookupSecret_cons, if_neg (by simp [hkey])]
      exact ih htail hm2

theorem lookup_map_replace {st : Store} {s : Secret} {a b : String}
    (h : ¬(s.nspace = a ∧ s.name = b)) :
    lookupSecret (st.map (fun t => if secretHasKey t s.nspace s.name then s else t)) a b
      = lookupSecret st a b := by
  induction st with
  | nil => rfl
  | cons t rest ih =>
    rw [List.map_cons]
    by_cases ht : secretHasKey t s.nspace s.name = true
    · rw [if_pos ht, lookupSecret_cons, lookupSecret_cons]
      have hsk : secretHasKey s a b = false := secretHasKey_false h
      have htk : secretHasKey t a b = false := by
        apply secretHasKey_false
        rcases secretHasKey_iff.mp ht with ⟨h1, h2⟩
        intro hc
        exact h ⟨by rw [← h1, hc.1], by rw [← h2, hc.2]⟩
      rw [if_neg (by simp [hsk]), if_neg (by simp [htk])]
      exact ih
    · rw [if_neg ht, lookupSecret_cons, lookupSecret_cons]
      by_cases htk : secretHasKey t a b = true
      · rw [if_pos htk, if_pos htk]
      · rw [if_neg htk, if_neg htk]
        exact ih

theorem lookup_map_replace_self {st : Store} {s : Secret}
    (h : (lookupSecret st s.nspace s.name).isSome) :
    lookupSecret (st.map (fun t => if secretHasKey t s.nspace s.name then s else t))
      s.nspace s.name = some s := by
  induction st with
  | nil => simp [lookupSecret] at h
  | cons t rest ih =>
    rw [List.map_cons]
    by_cases ht : secretHasKey t s.nspace s.name = true
    · rw [if_pos ht, lookupSecret_cons, if_pos (secretHasKey_self s)]
    · rw [if_neg ht, lookupSecret_cons, if_neg ht]
      rw [lookupSecret_cons, if_neg ht] at h
      exact ih h

theorem lookup_filter_other {st : Store} {a b c d : String}
    (h : ¬(a = c ∧ b = d)) :
    lookupSecret (st.filter (fun t => !(secretHasKey t a b))) c d = lookupSecret st c d := by
  induction st with
  | nil => rfl
  | cons t rest ih =>
    by_cases ht : secretHasKey t a b = true
    · rw [List.filter_cons_of_neg (by simp [ht]), lookupSecret_cons]
      have htk : secretHasKey t c d = false := by
        apply secretHasKey_false
        rcases secretHasKey_iff.mp ht with ⟨h1, h2⟩
        intro hc
        exact h ⟨by rw [← h1, hc.1], by rw [← h2, hc.2]⟩
      rw [if_neg (by simp [htk])]
      exact ih
    · have hf : secretHasKey t a b = false := by simpa using ht
      rw [List.filter_cons_of_pos (by simp [hf]), lookupSecret_cons, lookupSecret_cons]
      by_cases htk : secretHasKey t c d = true
      · rw [if_pos htk, if_pos htk]
      · rw [if_neg htk, if_neg htk]
        exact ih

theorem semCreate_empty {st : Store} {s : Secret} (h : lookupSecret st s.nspace s.name = none) :
    semCreate st s = (st ++ [s], none) := by
  unfold semCreate
  rw [h]

theorem semCreate_occupied {st : Store} {s : Secret}
    (h : (lookupSecret st s.nspace s.name).isSome) :
    semCreate st s = (st, some ApiErr.alreadyExists) := by
  rcases ho : lookupSecret st s.nspace s.name with _ | o
  · rw [ho] at h; cases h
  · unfold semCreate
    rw [ho]

theorem semUpdate_occupied {st : Store} {s : Secret}
    (h : (lookupSecret st s.nspace s.name).isSome) :
    semUpdate st s = (st.map (fun t => if secretHasKey t s.nspace s.name then s else t), none) := by
  rcases ho : lookupSecret st s.nspace s.name with _ | o
  · rw [ho] at h; cases h
  · unfold semUpdate
    rw [ho]

theorem semUpdate_lookup_other {st : Store} {s : Secret} {a b : String}
    (h : ¬(s.nspace = a ∧ s.name = b)) :
    lookupSecret (semUpdate st s).1 a b = lookupSecret st a b := by
  rcases ho : lookupSecret st s.nspace s.name with _ | o
  · have h1 : (semUpdate st s).1 = st := by
      unfold semUpdate
      rw [ho]
    rw [h1]
  · have h1 : (semUpdate st s).1
        = st.map (fun t => if secretHasKey t s.nspace s.name then s else t) := by
      rw [semUpdate_occupied (by rw [ho]; rfl)]
    rw [h1]
    exact lookup_map_replace h

theorem semUpdate_lookup_self {st : Store} {s : Secret}
    (h : (lookupSecret st s.nspace s.name).isSome) :
    lookupSecret (semUpdate st s).1 s.nspace s.name = some s := by
  have h1 : (semUpdate st s).1
      = st.map (fun t => if secretHasKey t s.nspace s.name then s else t) := by
    rw [semUpdate_occupied h]
  rw [h1]
  exact lookup_map_replace_self h

theorem semUpdate_lookup_isSome {st : Store} {s : Secret} {a b : String}
    (h : (lookupSecret st a b).isSome) :
    (lookupSecret (semUpdate st s).1 a b).isSome := by
  by_cases hk : s.nspace = a ∧ s.name = b
  · rcases hk with ⟨rfl, rfl⟩
    rw [semUpdate_lookup_self h]
    rfl
  · rw [semUpdate_lookup_other hk]
    exact h

theorem semDelete_lookup_other {st : Store} {a b c d : String}
    (h : ¬(a = c ∧ b = d)) :
    lookupSecret (semDelete st a b).1 c d = lookupSecret st c d := by
  rcases ho : lookupSecret st a b with _ | o
  · have h1 : (semDelete st a b).1 = st := by
      unfold semDelete
      rw [ho]
    rw [h1]
  · have h1 : (semDelete st a b).1 = st.filter (fun t => !(secretHasKey t a b)) := by
      unfold semDelete
      rw [ho]
    rw [h1]
    exact lookup_filter_other h

theorem newDuplicateSecret_nspace (source : Secret) (a : String) :
    (newDuplicateSecret source a).nspace = a := rfl

theorem newDuplicateSecret_name (source : Secret) (a : String) :
    (newDuplicateSecret source a).name = source.name := rfl

theorem semGet_of_isSome {st : Store} {a b : String} (h : (lookupSecret st a b).isSome) :
    semGet st a b = none := by
  rcases ho : lookupSecret st a b with _ | o
  · rw [ho] at h; cases h
  · unfold semGet
    rw [ho]

theorem semGet_of_none {st : Store} {a b : String} (h : lookupSecret st a b = none) :
    semGet st a b = some ApiErr.notFound := by
  unfold semGet
  rw [h]

theorem envGet_pure (n : Nat) (st : Store) (a b : String) :
    envGet pureEnv n st a b = semGet st a b := rfl

theorem envCreate_pure (n : Nat) (st : Store) (s : Secret) :
    envCreate pureEnv n st s = semCreate st s := rfl

theorem envUpdate_pure (n : Nat) (st : Store) (s : Secret) :
    envUpdate pureEnv n st s = semUpdate st s := rfl

theorem envDelete_pure (n : Nat) (st : Store) (a b : String) :
    envDelete pureEnv n st a b = semDelete st a b := rfl

theorem lookupSecret_append_hit {st : Store} {x : Secret} {a b : String}
    (h : lookupSecret st a b = none) (hx : secretHasKey x a b = true) :
    lookupSecret (st ++ [x]) a b = some x := by
  unfold lookupSecret at h ⊢
  rw [List.find?_append, h]
  simp [hx]

theorem wf_key_unique {st : Store} (hwf : wfStore st) {x y : Secret}
    (hx : x ∈ st) (hy : y ∈ st) (hk : x.nspace = y.nspace ∧ x.name = y.name) : x = y := by
  induction st with
  | nil => cases hx
  | cons t rest ih =>
    rcases List.pairwise_cons.mp hwf with ⟨hhead, htail⟩
    rcases List.mem_cons.mp hx with rfl | hx2
    · rcases List.mem_cons.mp hy with rfl | hy2
      · rfl
      · exact absurd (by rw [hk.1, hk.2]) (hhead y hy2)
    · rcases List.mem_cons.mp hy with rfl | hy2
      · exact absurd (by rw [← hk.1, ← hk.2]) (hhead x hx2)
      · exact ih htail hx2 hy2

/-! ### Step lemmas for the passes under the pure environment -/

theorem sourcesOne_cons_found (source : Secret) (ns : Namespace) (rest : List Namespace)
    (st : Store) (n : Nat) (re : Option ApiErr)
    (h : (lookupSecret st ns.name source.name).isSome) :
    reconcileSourcesOne pureEnv source (ns :: rest) st n re =
      (let r := reconcileSourcesOne pureEnv source rest st (n + 1) re
       { r with log := (Op.get ns.name source.name, none) :: r.log }) := by
  have hg : envGet pureEnv n st ns.name source.name = none := by
    rw [envGet_pure]
    exact semGet_of_isSome h
  simp only [reconcileSourcesOne, hg]

theorem sourcesOne_cons_missing (source : Secret) (ns : Namespace) (rest : List Namespace)
    (st : Store) (n : Nat) (re : Option ApiErr)
    (h : lookupSecret st ns.name source.name = none) :
    reconcileSourcesOne pureEnv source (ns :: rest) st n re =
      (let r := reconcileSourcesOne pureEnv source rest
          (st ++ [newDuplicateSecret source ns.name]) (n + 2) re
       { r with log := (Op.get ns.name source.name, some ApiErr.notFound) ::
          (Op.create (newDuplicateSecret source ns.name), none) :: r.log }) := by
  have hg : envGet pureEnv n st ns.name source.name = some ApiErr.notFound := by
    rw [envGet_pure]
    exact semGet_of_none h
  have hc : envCreate pureEnv (n + 1) st (newDuplicateSecret source ns.name)
      = (st ++ [newDuplicateSecret source ns.name], none) := by
    rw [envCreate_pure]
    exact semCreate_empty h
  simp only [reconcileSourcesOne, hg, hc]

theorem sources_cons (env : Env) (nssList : List Namespace) (s : Secret) (rest : List Secret)
    (st : Store) (n : Nat) (re : Option ApiErr) :
    reconcileSources env nssList (s :: rest) st n re =
      (let r1 := reconcileSourcesOne env s nssList st n re
       let r2 := reconcileSources env nssList rest r1.store r1.n r1.err
       { r2 with log := r1.log ++ r2.log }) := rfl

theorem dups_cons_orphan (sources : List Secret) (d : Secret) (rest : List Secret)
    (st : Store) (n : Nat) (re : Option ApiErr)
    (h : sourceSecretsLookup sources ((lookupAnn d.anns duplicatorFromAnnotationKey).getD "")
      = none) :
    reconcileDuplicates pureEnv sources (d :: rest) st n re =
      (let r := reconcileDuplicates pureEnv sources rest
          (semDelete st d.nspace d.name).1 (n + 1) re
       { r with log := (Op.delete d.nspace d.name, (semDelete st d.nspace d.name).2) :: r.log }) := by
  have hd : envDelete pureEnv n st d.nspace d.name = semDelete st d.nspace d.name := rfl
  rcases ho : lookupSecret st d.nspace d.name with _ | o
  · have hsem : semDelete st d.nspace d.name = (st, some ApiErr.notFound) := by
      unfold semDelete
      rw [ho]
    simp only [reconcileDuplicates, h, hd, hsem]
  · have hsem : semDelete st d.nspace d.name
        = (st.filter (fun t => !(secretHasKey t d.nspace d.name)), none) := by
      unfold semDelete
      rw [ho]
    simp only [reconcileDuplicates, h, hd, hsem]

theorem dups_cons_synced (sources : List Secret) (d : Secret) (rest : List Secret)
    (st : Store) (n : Nat) (re : Option ApiErr) (src : Secret)
    (h : sourceSecretsLookup sources ((lookupAnn d.anns duplicatorFromAnnotationKey).getD "")
      = some src)
    (he : d.data = src.data) :
    reconcileDuplicates pureEnv sources (d :: rest) st n re =
      reconcileDuplicates pureEnv sources rest st n re := by
  simp only [reconcileDuplicates, h, he]
  rw [if_pos (by simp)]

theorem dups_cons_divergent (sources : List Secret) (d : Secret) (rest : List Secret)
    (st : Store) (n : Nat) (re : Option ApiErr) (src : Secret)
    (h : sourceSecretsLookup sources ((lookupAnn d.anns duplicatorFromAnnotationKey).getD "")
      = some src)
    (he : ¬(d.data = src.data))
    (ho : (lookupSecret st (newDuplicateSecret src d.nspace).nspace
      (newDuplicateSecret src d.nspace).name).isSome) :
    reconcileDuplicates pureEnv sources (d :: rest) st n re =
      (let r := reconcileDuplicates pureEnv sources rest
          (semUpdate st (newDuplicateSecret src d.nspace)).1 (n + 1) re
       { r with log := (Op.update (newDuplicateSecret src d.nspace), none) :: r.log }) := by
  have hu : envUpdate pureEnv n st (newDuplicateSecret src d.nspace)
      = semUpdate st (newDuplicateSecret src d.nspace) := rfl
  have h2 : (semUpdate st (newDuplicateSecret src d.nspace)).2 = none := by
    rw [semUpdate_occupied ho]
  simp only [reconcileDuplicates, h, hu]
  rw [if_neg (by simp [he])]
  simp only [h2]

theorem dups_cons_divergent_any (sources : List Secret) (d : Secret) (rest : List Secret)
    (st : Store) (n : Nat) (re : Option ApiErr) (src : Secret)
    (h : sourceSecretsLookup sources ((lookupAnn d.anns duplicatorFromAnnotationKey).getD "")
      = some src)
    (he : ¬(d.data = src.data)) :
    reconcileDuplicates pureEnv sources (d :: rest) st n re =
      (let u := newDuplicateSecret src d.nspace
       let r := reconcileDuplicates pureEnv sources rest (semUpdate st u).1 (n + 1)
         ((semUpdate st u).2.or re)
       { r with log := (Op.update u, (semUpdate st u).2) :: r.log }) := by
  have hu : envUpdate pureEnv n st (newDuplicateSecret src d.nspace)
      = semUpdate st (newDuplicateSecret src d.nspace) := rfl
  simp only [reconcileDuplicates, h, hu]
  rw [if_neg (by simp [he])]
  rcases h2 : (semUpdate st (newDuplicateSecret src d.nspace)).2 with _ | e
  · simp only [h2, Option.or]
  · simp only [h2, Option.or]

theorem dups_cons_divergent_missing (sources : List Secret) (d : Secret) (rest : List Secret)
    (st : Store) (n : Nat) (re : Option ApiErr) (src : Secret)
    (h : sourceSecretsLookup sources ((lookupAnn d.anns duplicatorFromAnnotationKey).getD "")
      = some src)
    (he : ¬(d.data = src.data))
    (ho : lookupSecret st (newDuplicateSecret src d.nspace).nspace
      (newDuplicateSecret src d.nspace).name = none) :
    reconcileDuplicates pureEnv sources (d :: rest) st n re =
      (let r := reconcileDuplicates pureEnv sources rest st (n + 1) (some ApiErr.notFound)
       { r with log := (Op.update (newDuplicateSecret src d.nspace),
          some ApiErr.notFound) :: r.log }) := by
  have hu : envUpdate pureEnv n st (newDuplicateSecret src d.nspace)
      = (st, some ApiErr.notFound) := by
    rw [envUpdate_pure]
    unfold semUpdate
    rw [ho]
  simp only [reconcileDuplicates, h, hu]
  rw [if_neg (by simp [he])]

/-! ### Source-pass lemmas (pure environment) -/

theorem sourcesOne_err (source : Secret) :
    ∀ (nss : List Namespace) (st : Store) (n : Nat) (re : Option ApiErr),
    (reconcileSourcesOne pureEnv source nss st n re).err = re := by
  intro nss
  induction nss with
  | nil => intro st n re; rfl
  | cons ns rest ih =>
    intro st n re
    rcases ho : lookupSecret st ns.name source.name with _ | o
    · rw [sourcesOne_cons_missing source ns rest st n re ho]
      exact ih _ _ _
    · rw [sourcesOne_cons_found source ns rest st n re (by rw [ho]; rfl)]
      exact ih _ _ _

theorem sourcesOne_extends (source : Secret) :
    ∀ (nss : List Namespace) (st : Store) (n : Nat) (re : Option ApiErr),
    ∃ d : Store, (reconcileSourcesOne pureEnv source nss st n re).store = st ++ d ∧
      ∀ x ∈ d, ∃ ns, ns ∈ nss ∧ x = newDuplicateSecret source ns.name := by
  intro nss
  induction nss with
  | nil =>
    intro st n re
    exact ⟨[], by simp [reconcileSourcesOne], by simp⟩
  | cons ns rest ih =>
    intro st n re
    rcases ho : lookupSecret st ns.name source.name with _ | o
    · rw [sourcesOne_cons_missing source ns rest st n re ho]
      obtain ⟨d, hstore, hmem⟩ := ih (st ++ [newDuplicateSecret source ns.name]) (n + 2) re
      refine ⟨newDuplicateSecret source ns.name :: d, ?_, ?_⟩
      · show (reconcileSourcesOne pureEnv source rest
            (st ++ [newDuplicateSecret source ns.name]) (n + 2) re).store = _
        rw [hstore, List.append_assoc]
        rfl
      · intro x hx
        rcases List.mem_cons.mp hx with rfl | hx2
        · exact ⟨ns, List.mem_cons_self _ _, rfl⟩
        · obtain ⟨ns2, hns2, hxeq⟩ := hmem x hx2
          exact ⟨ns2, List.mem_cons_of_mem _ hns2, hxeq⟩
    · rw [sourcesOne_cons_found source ns rest st n re (by rw [ho]; rfl)]
      obtain ⟨d, hstore, hmem⟩ := ih st (n + 1) re
      refine ⟨d, hstore, ?_⟩
      intro x hx
      obtain ⟨ns2, hns2, hxeq⟩ := hmem x hx
      exact ⟨ns2, List.mem_cons_of_mem _ hns2, hxeq⟩

theorem sourcesOne_preserve_some (source : Secret) {a b : String} {o : Secret}
    (nss : List Namespace) (st : Store) (n : Nat) (re : Option ApiErr)
    (h : lookupSecret st a b = some o) :
    lookupSecret (reconcileSourcesOne pureEnv source nss st n re).store a b = some o := by
  obtain ⟨d, hstore, _⟩ := sourcesOne_extends source nss st n re
  rw [hstore]
  exact lookupSecret_append_left d h

theorem sourcesOne_isSome (source : Secret) {a b : String}
    (nss : List Namespace) (st : Store) (n : Nat) (re : Option ApiErr)
    (h : (lookupSecret st a b).isSome) :
    (lookupSecret (reconcileSourcesOne pureEnv source nss st n re).store a b).isSome := by
  obtain ⟨d, hstore, _⟩ := sourcesOne_extends source nss st n re
  rw [hstore]
  exact lookupSecret_append_isSome d h

theorem sourcesOne_none_other_name (source : Secret) {a b : String}
    (nss : List Namespace) (st : Store) (n : Nat) (re : Option ApiErr)
    (h : lookupSecret st a b = none) (hb : b ≠ source.name) :
    lookupSecret (reconcileSourcesOne pureEnv source nss st n re).store a b = none := by
  obtain ⟨d, hstore, hmem⟩ := sourcesOne_extends source nss st n re
  rw [hstore]
  apply lookupSecret_append_none h
  intro x hx
  obtain ⟨ns2, _, rfl⟩ := hmem x hx
  apply secretHasKey_false
  intro hc
  exact hb (hc.2.symm)

theorem sourcesOne_log_shape (source : Secret) :
    ∀ (nss : List Namespace) (st : Store) (n : Nat) (re : Option ApiErr),
    ∀ e ∈ (reconcileSourcesOne pureEnv source nss st n re).log,
      (∃ x y r, e = (Op.get x y, r)) ∨
      (∃ ns, ns ∈ nss ∧ ∃ r, e = (Op.create (newDuplicateSecret source ns.name), r)) := by
  intro nss
  induction nss with
  | nil => intro st n re e he; cases he
  | cons ns rest ih =>
    intro st n re e he
    rcases ho : lookupSecret st ns.name source.name with _ | o
    · rw [sourcesOne_cons_missing source ns rest st n re ho] at he
      rcases List.mem_cons.mp he with rfl | he2
      · exact Or.inl ⟨ns.name, source.name, some ApiErr.notFound, rfl⟩
      · rcases List.mem_cons.mp he2 with rfl | he3
        · exact Or.inr ⟨ns, List.mem_cons_self _ _, none, rfl⟩
        · rcases ih _ _ _ _ he3 with hg | ⟨ns2, hns2, r, hr⟩
          · exact Or.inl hg
          · exact Or.inr ⟨ns2, List.mem_cons_of_mem _ hns2, r, hr⟩
    · rw [sourcesOne_cons_found source ns rest st n re (by rw [ho]; rfl)] at he
      rcases List.mem_cons.mp he with rfl | he2
      · exact Or.inl ⟨ns.name, source.name, none, rfl⟩
      · rcases ih _ _ _ _ he2 with hg | ⟨ns2, hns2, r, hr⟩
        · exact Or.inl hg
        · exact Or.inr ⟨ns2, List.mem_cons_of_mem _ hns2, r, hr⟩

theorem sourcesOne_no_write_at (source : Secret) {a b : String} :
    ∀ (nss : List Namespace) (st : Store) (n : Nat) (re : Option ApiErr),
    (lookupSecret st a b).isSome →
    ∀ e ∈ (reconcileSourcesOne pureEnv source nss st n re).log,
      isWriteOp e.1 = true → opTargets e.1 a b = false := by
  intro nss
  induction nss with
  | nil => intro st n re _ e he; cases he
  | cons ns rest ih =>
    intro st n re hocc e he hw
    rcases ho : lookupSecret st ns.name source.name with _ | o
    · rw [sourcesOne_cons_missing source ns rest st n re ho] at he
      rcases List.mem_cons.mp he with rfl | he2
      · cases hw
      · rcases List.mem_cons.mp he2 with rfl | he3
        · show secretHasKey (newDuplicateSecret source ns.name) a b = false
          apply secretHasKey_false
          intro hc
          rw [newDuplicateSecret_nspace] at hc
          rw [newDuplicateSecret_name] at hc
          rw [← hc.1, ← hc.2, ho] at hocc
          cases hocc
        · have hocc2 : (lookupSecret (st ++ [newDuplicateSecret source ns.name]) a b).isSome :=
            lookupSecret_append_isSome _ hocc
          exact ih _ _ _ hocc2 e he3 hw
    · rw [sourcesOne_cons_found source ns rest st n re (by rw [ho]; rfl)] at he
      rcases List.mem_cons.mp he with rfl | he2
      · cases hw
      · exact ih _ _ _ hocc e he2 hw

theorem sourcesOne_fill (source : Secret) {a : String} :
    ∀ (nss : List Namespace) (st : Store) (n : Nat) (re : Option ApiErr),
    (∃ ns, ns ∈ nss ∧ ns.name = a) →
    (lookupSecret (reconcileSourcesOne pureEnv source nss st n re).store a source.name).isSome := by
  intro nss
  induction nss with
  | nil => intro st n re h; obtain ⟨ns, hns, _⟩ := h; cases hns
  | cons ns rest ih =>
    intro st n re hw
    rcases ho : lookupSecret st ns.name source.name with _ | o
    · rw [sourcesOne_cons_missing source ns rest st n re ho]
      obtain ⟨ns0, hns0, hname⟩ := hw
      rcases List.mem_cons.mp hns0 with rfl | hns0r
      · subst hname
        have hhit : lookupSecret (st ++ [newDuplicateSecret source ns0.name])
            ns0.name source.name = some (newDuplicateSecret source ns0.name) :=
          lookupSecret_append_hit ho (by
            apply secretHasKey_iff.mpr
            exact ⟨rfl, rfl⟩)
        exact sourcesOne_isSome source rest _ _ _ (by rw [hhit]; rfl)
      · exact ih _ _ _ ⟨ns0, hns0r, hname⟩
    · rw [sourcesOne_cons_found source ns rest st n re (by rw [ho]; rfl)]
      obtain ⟨ns0, hns0, hname⟩ := hw
      rcases List.mem_cons.mp hns0 with rfl | hns0r
      · subst hname
        exact sourcesOne_isSome source rest _ _ _ (by rw [ho]; rfl)
      · exact ih _ _ _ ⟨ns0, hns0r, hname⟩

theorem sourcesOne_fill_val (source : Secret) {a : String} :
    ∀ (nss : List Namespace) (st : Store) (n : Nat) (re : Option ApiErr),
    lookupSecret st a source.name = none →
    (∃ ns, ns ∈ nss ∧ ns.name = a) →
    lookupSecret (reconcileSourcesOne pureEnv source nss st n re).store a source.name
      = some (newDuplicateSecret source a) := by
  intro nss
  induction nss with
  | nil => intro st n re _ h; obtain ⟨ns, hns, _⟩ := h; cases hns
  | cons ns rest ih =>
    intro st n re hnone hw
    by_cases hna : ns.name = a
    · subst hna
      rw [sourcesOne_cons_missing source ns rest st n re hnone]
      have hhit : lookupSecret (st ++ [newDuplicateSecret source ns.name])
          ns.name source.name = some (newDuplicateSecret source ns.name) :=
        lookupSecret_append_hit hnone (by
          apply secretHasKey_iff.mpr
          exact ⟨rfl, rfl⟩)
      exact sourcesOne_preserve_some source rest _ _ _ hhit
    · obtain ⟨ns0, hns0, hname⟩ := hw
      rcases List.mem_cons.mp hns0 with rfl | hns0r
      · exact absurd hname hna
      · rcases ho : lookupSecret st ns.name source.name with _ | o
        · rw [sourcesOne_cons_missing source ns rest st n re ho]
          have hnone2 : lookupSecret (st ++ [newDuplicateSecret source ns.name])
              a source.name = none := by
            apply lookupSecret_append_none hnone
            intro x hx
            rcases List.mem_cons.mp hx with rfl | hx2
            · apply secretHasKey_false
              intro hc
              rw [newDuplicateSecret_nspace] at hc
              exact hna hc.1
            · cases hx2
          exact ih _ _ _ hnone2 ⟨ns0, hns0r, hname⟩
        · rw [sourcesOne_cons_found source ns rest st n re (by rw [ho]; rfl)]
          exact ih _ _ _ hnone ⟨ns0, hns0r, hname⟩

theorem sourcesOne_get_mem (source : Secret) {ns0 : Namespace} :
    ∀ (nss : List Namespace) (st : Store) (n : Nat) (re : Option ApiErr),
    ns0 ∈ nss →
    ∃ r, (Op.get ns0.name source.name, r) ∈ (reconcileSourcesOne pureEnv source nss st n re).log := by
  intro nss
  induction nss with
  | nil => intro st n re h; cases h
  | cons ns rest ih =>
    intro st n re hmem
    rcases ho : lookupSecret st ns.name source.name with _ | o
    · rw [sourcesOne_cons_missing source ns rest st n re ho]
      rcases List.mem_cons.mp hmem with rfl | hm2
      · exact ⟨some ApiErr.notFound, List.mem_cons_self _ _⟩
      · obtain ⟨r, hr⟩ := ih _ (n + 2) re hm2
        exact ⟨r, List.mem_cons_of_mem _ (List.mem_cons_of_mem _ hr)⟩
    · rw [sourcesOne_cons_found source ns rest st n re (by rw [ho]; rfl)]
      rcases List.mem_cons.mp hmem with rfl | hm2
      · exact ⟨none, List.mem_cons_self _ _⟩
      · obtain ⟨r, hr⟩ := ih _ (n + 1) re hm2
        exact ⟨r, List.mem_cons_of_mem _ hr⟩

/-! ### Outer source-pass lemmas (pure environment) -/

theorem sources_err (nssList : List Namespace) :
    ∀ (sources : List Secret) (st : Store) (n : Nat) (re : Option ApiErr),
    (reconcileSources pureEnv nssList sources st n re).err = re := by
  intro sources
  induction sources with
  | nil => intro st n re; rfl
  | cons s rest ih =>
    intro st n re
    rw [sources_cons]
    show (reconcileSources pureEnv nssList rest _ _ _).err = re
    rw [ih, sourcesOne_err]

theorem sources_extends (nssList : List Namespace) :
    ∀ (sources : List Secret) (st : Store) (n : Nat) (re : Option ApiErr),
    ∃ d : Store, (reconcileSources pureEnv nssList sources st n re).store = st ++ d ∧
      ∀ x ∈ d, ∃ s, s ∈ sources ∧ ∃ ns, ns ∈ nssList ∧ x = newDuplicateSecret s ns.name := by
  intro sources
  induction sources with
  | nil =>
    intro st n re
    exact ⟨[], by simp [reconcileSources], by simp⟩
  | cons s rest ih =>
    intro st n re
    rw [sources_cons]
    obtain ⟨d1, hst1, hm1⟩ := sourcesOne_extends s nssList st n re
    obtain ⟨d2, hst2, hm2⟩ :=
      ih (reconcileSourcesOne pureEnv s nssList st n re).store
        (reconcileSourcesOne pureEnv s nssList st n re).n
        (reconcileSourcesOne pureEnv s nssList st n re).err
    refine ⟨d1 ++ d2, ?_, ?_⟩
    · show (reconcileSources pureEnv nssList rest _ _ _).store = st ++ (d1 ++ d2)
      rw [hst2, hst1, List.append_assoc]
    · intro x hx
      rcases List.mem_append.mp hx with hx1 | hx2
      · obtain ⟨ns, hns, hxeq⟩ := hm1 x hx1
        exact ⟨s, List.mem_cons_self _ _, ns, hns, hxeq⟩
      · obtain ⟨s2, hs2, ns, hns, hxeq⟩ := hm2 x hx2
        exact ⟨s2, List.mem_cons_of_mem _ hs2, ns, hns, hxeq⟩

theorem sources_preserve_some (nssList : List Namespace) {a b : String} {o : Secret}
    (sources : List Secret) (st : Store) (n : Nat) (re : Option ApiErr)
    (h : lookupSecret st a b = some o) :
    lookupSecret (reconcileSources pureEnv nssList sources st n re).store a b = some o := by
  obtain ⟨d, hstore, _⟩ := sources_extends nssList sources st n re
  rw [hstore]
  exact lookupSecret_append_left d h

theorem sources_isSome (nssList : List Namespace) {a b : String}
    (sources : List Secret) (st : Store) (n : Nat) (re : Option ApiErr)
    (h : (lookupSecret st a b).isSome) :
    (lookupSecret (reconcileSources pureEnv nssList sources st n re).store a b).isSome := by
  obtain ⟨d, hstore, _⟩ := sources_extends nssList sources st n re
  rw [hstore]
  exact lookupSecret_append_isSome d h

theorem sources_none_other_name (nssList : List Namespace) {a b : String}
    (sources : List Secret) (st : Store) (n : Nat) (re : Option ApiErr)
    (h : lookupSecret st a b = none) (hb : ∀ s ∈ sources, b ≠ s.name) :
    lookupSecret (reconcileSources pureEnv nssList sources st n re).store a b = none := by
  obtain ⟨d, hstore, hmem⟩ := sources_extends nssList sources st n re
  rw [hstore]
  apply lookupSecret_append_none h
  intro x hx
  obtain ⟨s2, hs2, ns2, _, rfl⟩ := hmem x hx
  apply secretHasKey_false
  intro hc
  exact hb s2 hs2 hc.2.symm

theorem sources_log_shape (nssList : List Namespace) :
    ∀ (sources : List Secret) (st : Store) (n : Nat) (re : Option ApiErr),
    ∀ e ∈ (reconcileSources pureEnv nssList sources st n re).log,
      (∃ x y r, e = (Op.get x y, r)) ∨
      (∃ s, s ∈ sources ∧ ∃ ns, ns ∈ nssList ∧
        ∃ r, e = (Op.create (newDuplicateSecret s ns.name), r)) := by
  intro sources
  induction sources with
  | nil => intro st n re e he; cases he
  | cons s rest ih =>
    intro st n re e he
    rw [sources_cons] at he
    rcases List.mem_append.mp he with he1 | he2
    · rcases sourcesOne_log_shape s nssList st n re e he1 with hg | ⟨ns, hns, r, hr⟩
      · exact Or.inl hg
      · exact Or.inr ⟨s, List.mem_cons_self _ _, ns, hns, r, hr⟩
    · rcases ih _ _ _ e he2 with hg | ⟨s2, hs2, ns, hns, r, hr⟩
      · exact Or.inl hg
      · exact Or.inr ⟨s2, List.mem_cons_of_mem _ hs2, ns, hns, r, hr⟩

theorem sources_no_write_at (nssList : List Namespace) {a b : String} :
    ∀ (sources : List Secret) (st : Store) (n : Nat) (re : Option ApiErr),
    (lookupSecret st a b).isSome →
    ∀ e ∈ (reconcileSources pureEnv nssList sources st n re).log,
      isWriteOp e.1 = true → opTargets e.1 a b = false := by
  intro sources
  induction sources with
  | nil => intro st n re _ e he; cases he
  | cons s rest ih =>
    intro st n re hocc e he hw
    rw [sources_cons] at he
    rcases List.mem_append.mp he with he1 | he2
    · exact sourcesOne_no_write_at s nssList st n re hocc e he1 hw
    · exact ih _ _ _ (sourcesOne_isSome s nssList st n re hocc) e he2 hw

theorem sources_fill (nssList : List Namespace) {S : Secret} {a : String} :
    ∀ (sources : List Secret) (st : Store) (n : Nat) (re : Option ApiErr),
    S ∈ sources → (∃ ns, ns ∈ nssList ∧ ns.name = a) →
    (lookupSecret (reconcileSources pureEnv nssList sources st n re).store a S.name).isSome := by
  intro sources
  induction sources with
  | nil => intro st n re h _; cases h
  | cons s rest ih =>
    intro st n re hmem hw
    rw [sources_cons]
    rcases List.mem_cons.mp hmem with rfl | hm2
    · show (lookupSecret (reconcileSources pureEnv nssList rest _ _ _).store a S.name).isSome
      exact sources_isSome nssList rest _ _ _ (sourcesOne_fill S nssList st n re hw)
    · exact ih _ _ _ hm2 hw

theorem sources_fill_val (nssList : List Namespace) {S : Secret} {a : String} :
    ∀ (sources : List Secret) (st : Store) (n : Nat) (re : Option ApiErr),
    S ∈ sources → (∀ T ∈ sources, T.name = S.name → T = S) →
    lookupSecret st a S.name = none →
    (∃ ns, ns ∈ nssList ∧ ns.name = a) →
    lookupSecret (reconcileSources pureEnv nssList sources st n re).store a S.name
      = some (newDuplicateSecret S a) := by
  intro sources
  induction sources with
  | nil => intro st n re h _ _ _; cases h
  | cons s rest ih =>
    intro st n re hmem huniq hnone hw
    rw [sources_cons]
    by_cases hs : s = S
    · subst hs
      show lookupSecret (reconcileSources pureEnv nssList rest _ _ _).store a s.name = _
      exact sources_preserve_some nssList rest _ _ _
        (sourcesOne_fill_val s nssList st n re hnone hw)
    · have hm2 : S ∈ rest := by
        rcases List.mem_cons.mp hmem with rfl | hm2
        · exact absurd rfl hs
        · exact hm2
      have hsname : s.name ≠ S.name := fun hc => hs (huniq s (List.mem_cons_self _ _) hc)
      show lookupSecret (reconcileSources pureEnv nssList rest _ _ _).store a S.name = _
      have hnone2 : lookupSecret (reconcileSourcesOne pureEnv s nssList st n re).store a S.name
          = none :=
        sourcesOne_none_other_name s nssList st n re hnone (fun hc => hsname hc.symm)
      exact ih _ _ _ hm2 (fun T hT => huniq T (List.mem_cons_of_mem _ hT)) hnone2 hw

theorem sources_get_mem (nssList : List Namespace) {S : Secret} {ns0 : Namespace} :
    ∀ (sources : List Secret) (st : Store) (n : Nat) (re : Option ApiErr),
    S ∈ sources → ns0 ∈ nssList →
    ∃ r, (Op.get ns0.name S.name, r) ∈ (reconcileSources pureEnv nssList sources st n re).log := by
  intro sources
  induction sources with
  | nil => intro st n re h _; cases h
  | cons s rest ih =>
    intro st n re hmem hns
    rw [sources_cons]
    rcases List.mem_cons.mp hmem with rfl | hm2
    · obtain ⟨r, hr⟩ := sourcesOne_get_mem S nssList st n re hns
      exact ⟨r, List.mem_append.mpr (Or.inl hr)⟩
    · obtain ⟨r, hr⟩ := ih _ _ _ hm2 hns
      exact ⟨r, List.mem_append.mpr (Or.inr hr)⟩

/-! ### Duplicate-pass lemmas (pure environment) -/

theorem opTargets_delete_false {x y a b : String} (h : ¬(x = a ∧ y = b)) :
    opTargets (Op.delete x y) a b = false := by
  show (x == a && y == b) = false
  by_cases h1 : x = a
  · by_cases h2 : y = b
    · exact absurd ⟨h1, h2⟩ h
    · simp [h1, h2]
  · simp [h1]

theorem opTargets_update_false {s : Secret} {a b : String} (h : ¬(s.nspace = a ∧ s.name = b)) :
    opTargets (Op.update s) a b = false := by
  show secretHasKey s a b = false
  exact secretHasKey_false h

theorem dups_log_shape (sources : List Secret) :
    ∀ (dups : List Secret) (st : Store) (n : Nat) (re : Option ApiErr),
    ∀ e ∈ (reconcileDuplicates pureEnv sources dups st n re).log,
      (∃ d, d ∈ dups ∧ sourceSecretsLookup sources (fromAnnStr d) = none ∧
        ∃ r, e = (Op.delete d.nspace d.name, r)) ∨
      (∃ d src, d ∈ dups ∧ sourceSecretsLookup sources (fromAnnStr d) = some src ∧
        ¬(d.data = src.data) ∧ ∃ r, e = (Op.update (newDuplicateSecret src d.nspace), r)) := by
  intro dups
  induction dups with
  | nil => intro st n re e he; cases he
  | cons d rest ih =>
    intro st n re e he
    rcases hres : sourceSecretsLookup sources (fromAnnStr d) with _ | src
    · rw [dups_cons_orphan sources d rest st n re hres] at he
      rcases List.mem_cons.mp he with rfl | he2
      · exact Or.inl ⟨d, List.mem_cons_self _ _, hres, _, rfl⟩
      · rcases ih _ _ _ e he2 with ⟨d2, hd2, h1, r, hr⟩ | ⟨d2, src2, hd2, h1, h2, r, hr⟩
        · exact Or.inl ⟨d2, List.mem_cons_of_mem _ hd2, h1, r, hr⟩
        · exact Or.inr ⟨d2, src2, List.mem_cons_of_mem _ hd2, h1, h2, r, hr⟩
    · by_cases heq : d.data = src.data
      · rw [dups_cons_synced sources d rest st n re src hres heq] at he
        rcases ih _ _ _ e he with ⟨d2, hd2, h1, r, hr⟩ | ⟨d2, src2, hd2, h1, h2, r, hr⟩
        · exact Or.inl ⟨d2, List.mem_cons_of_mem _ hd2, h1, r, hr⟩
        · exact Or.inr ⟨d2, src2, List.mem_cons_of_mem _ hd2, h1, h2, r, hr⟩
      · rw [dups_cons_divergent_any sources d rest st n re src hres heq] at he
        rcases List.mem_cons.mp he with rfl | he2
        · exact Or.inr ⟨d, src, List.mem_cons_self _ _, hres, heq, _, rfl⟩
        · rcases ih _ _ _ e he2 with ⟨d2, hd2, h1, r, hr⟩ | ⟨d2, src2, hd2, h1, h2, r, hr⟩
          · exact Or.inl ⟨d2, List.mem_cons_of_mem _ hd2, h1, r, hr⟩
          · exact Or.inr ⟨d2, src2, List.mem_cons_of_mem _ hd2, h1, h2, r, hr⟩

theorem dups_no_write_at (sources : List Secret) {a b : String}
    (dups : List Secret) (st : Store) (n : Nat) (re : Option ApiErr)
    (hdel : ∀ d ∈ dups, sourceSecretsLookup sources (fromAnnStr d) = none →
      ¬(d.nspace = a ∧ d.name = b))
    (hupd : ∀ d ∈ dups, ∀ src, sourceSecretsLookup sources (fromAnnStr d) = some src →
      ¬(d.data = src.data) → ¬(d.nspace = a ∧ src.name = b)) :
    ∀ e ∈ (reconcileDuplicates pureEnv sources dups st n re).log,
      opTargets e.1 a b = false := by
  intro e he
  rcases dups_log_shape sources dups st n re e he with
    ⟨d, hd, h1, r, rfl⟩ | ⟨d, src, hd, h1, h2, r, rfl⟩
  · exact opTargets_delete_false (hdel d hd h1)
  · apply opTargets_update_false
    intro hc
    exact hupd d hd src h1 h2 ⟨hc.1, hc.2⟩

theorem dups_preserve (sources : List Secret) {a b : String} :
    ∀ (dups : List Secret) (st : Store) (n : Nat) (re : Option ApiErr),
    (∀ d ∈ dups, sourceSecretsLookup sources (fromAnnStr d) = none →
      ¬(d.nspace = a ∧ d.name = b)) →
    (∀ d ∈ dups, ∀ src, sourceSecretsLookup sources (fromAnnStr d) = some src →
      ¬(d.data = src.data) → ¬(d.nspace = a ∧ src.name = b)) →
    lookupSecret (reconcileDuplicates pureEnv sources dups st n re).store a b
      = lookupSecret st a b := by
  intro dups
  induction dups with
  | nil => intro st n re _ _; rfl
  | cons d rest ih =>
    intro st n re hdel hupd
    rcases hres : sourceSecretsLookup sources (fromAnnStr d) with _ | src
    · rw [dups_cons_orphan sources d rest st n re hres]
      show lookupSecret (reconcileDuplicates pureEnv sources rest
        (semDelete st d.nspace d.name).1 (n + 1) re).store a b = _
      rw [ih _ _ _ (fun x hx => hdel x (List.mem_cons_of_mem _ hx))
        (fun x hx => hupd x (List.mem_cons_of_mem _ hx))]
      exact semDelete_lookup_other (hdel d (List.mem_cons_self _ _) hres)
    · by_cases heq : d.data = src.data
      · rw [dups_cons_synced sources d rest st n re src hres heq]
        exact ih _ _ _ (fun x hx => hdel x (List.mem_cons_of_mem _ hx))
          (fun x hx => hupd x (List.mem_cons_of_mem _ hx))
      · rw [dups_cons_divergent_any sources d rest st n re src hres heq]
        show lookupSecret (reconcileDuplicates pureEnv sources rest
          (semUpdate st (newDuplicateSecret src d.nspace)).1 (n + 1) _).store a b = _
        rw [ih _ _ _ (fun x hx => hdel x (List.mem_cons_of_mem _ hx))
          (fun x hx => hupd x (List.mem_cons_of_mem _ hx))]
        apply semUpdate_lookup_other
        intro hc
        exact hupd d (List.mem_cons_self _ _) src hres heq ⟨hc.1, hc.2⟩

theorem dups_inv (sources : List Secret) {a b : String} {c : Secret} :
    ∀ (dups : List Secret) (st : Store) (n : Nat) (re : Option ApiErr),
    lookupSecret st a b = some c →
    (∀ d ∈ dups, sourceSecretsLookup sources (fromAnnStr d) = none →
      ¬(d.nspace = a ∧ d.name = b)) →
    (∀ d ∈ dups, ∀ src, sourceSecretsLookup sources (fromAnnStr d) = some src →
      ¬(d.data = src.data) → d.nspace = a → src.name = b →
      newDuplicateSecret src d.nspace = c) →
    lookupSecret (reconcileDuplicates pureEnv sources dups st n re).store a b = some c := by
  intro dups
  induction dups with
  | nil => intro st n re h _ _; exact h
  | cons d rest ih =>
    intro st n re hlook hdel hcontent
    rcases hres : sourceSecretsLookup sources (fromAnnStr d) with _ | src
    · rw [dups_cons_orphan sources d rest st n re hres]
      show lookupSecret (reconcileDuplicates pureEnv sources rest
        (semDelete st d.nspace d.name).1 (n + 1) re).store a b = _
      apply ih _ _ _ ?_ (fun x hx => hdel x (List.mem_cons_of_mem _ hx))
        (fun x hx => hcontent x (List.mem_cons_of_mem _ hx))
      rw [semDelete_lookup_other (hdel d (List.mem_cons_self _ _) hres)]
      exact hlook
    · by_cases heq : d.data = src.data
      · rw [dups_cons_synced sources d rest st n re src hres heq]
        exact ih _ _ _ hlook (fun x hx => hdel x (List.mem_cons_of_mem _ hx))
          (fun x hx => hcontent x (List.mem_cons_of_mem _ hx))
      · rw [dups_cons_divergent_any sources d rest st n re src hres heq]
        show lookupSecret (reconcileDuplicates pureEnv sources rest
          (semUpdate st (newDuplicateSecret src d.nspace)).1 (n + 1) _).store a b = _
        by_cases hk : d.nspace = a ∧ src.name = b
        · have hc : newDuplicateSecret src d.nspace = c :=
            hcontent d (List.mem_cons_self _ _) src hres heq hk.1 hk.2
          have hocc : (lookupSecret st (newDuplicateSecret src d.nspace).nspace
              (newDuplicateSecret src d.nspace).name).isSome := by
            show (lookupSecret st d.nspace src.name).isSome
            rw [hk.1, hk.2, hlook]
            rfl
          have hafter : lookupSecret
              (semUpdate st (newDuplicateSecret src d.nspace)).1 a b = some c := by
            rw [← hk.1, ← hk.2, ← hc]
            exact semUpdate_lookup_self hocc
          exact ih _ _ _ hafter (fun x hx => hdel x (List.mem_cons_of_mem _ hx))
            (fun x hx => hcontent x (List.mem_cons_of_mem _ hx))
        · have hne : ¬((newDuplicateSecret src d.nspace).nspace = a ∧
              (newDuplicateSecret src d.nspace).name = b) := by
            intro hc2
            exact hk ⟨hc2.1, hc2.2⟩
          have hafter : lookupSecret
              (semUpdate st (newDuplicateSecret src d.nspace)).1 a b = some c := by
            rw [semUpdate_lookup_other hne]
            exact hlook
          exact ih _ _ _ hafter (fun x hx => hdel x (List.mem_cons_of_mem _ hx))
            (fun x hx => hcontent x (List.mem_cons_of_mem _ hx))

theorem dups_fire (sources : List Secret) {a b : String} {c : Secret} :
    ∀ (dups : List Secret) (st : Store) (n : Nat) (re : Option ApiErr),
    (lookupSecret st a b).isSome →
    (∀ d ∈ dups, sourceSecretsLookup sources (fromAnnStr d) = none →
      ¬(d.nspace = a ∧ d.name = b)) →
    (∀ d ∈ dups, ∀ src, sourceSecretsLookup sources (fromAnnStr d) = some src →
      ¬(d.data = src.data) → d.nspace = a → src.name = b →
      newDuplicateSecret src d.nspace = c) →
    (∃ d, d ∈ dups ∧ ∃ src, sourceSecretsLookup sources (fromAnnStr d) = some src ∧
      ¬(d.data = src.data) ∧ d.nspace = a ∧ src.name = b) →
    lookupSecret (reconcileDuplicates pureEnv sources dups st n re).store a b = some c := by
  intro dups
  induction dups with
  | nil =>
    intro st n re _ _ _ hfire
    obtain ⟨d, hd, _⟩ := hfire
    cases hd
  | cons d rest ih =>
    intro st n re hocc hdel hcontent hfire
    rcases hres : sourceSecretsLookup sources (fromAnnStr d) with _ | src
    · rw [dups_cons_orphan sources d rest st n re hres]
      show lookupSecret (reconcileDuplicates pureEnv sources rest
        (semDelete st d.nspace d.name).1 (n + 1) re).store a b = _
      have hocc2 : (lookupSecret (semDelete st d.nspace d.name).1 a b).isSome := by
        rw [semDelete_lookup_other (hdel d (List.mem_cons_self _ _) hres)]
        exact hocc
      have hfire2 : ∃ x, x ∈ rest ∧ ∃ src, sourceSecretsLookup sources (fromAnnStr x) = some src ∧
          ¬(x.data = src.data) ∧ x.nspace = a ∧ src.name = b := by
        obtain ⟨x, hx, src2, hsrc2, hrest⟩ := hfire
        rcases List.mem_cons.mp hx with rfl | hx2
        · rw [hres] at hsrc2; cases hsrc2
        · exact ⟨x, hx2, src2, hsrc2, hrest⟩
      exact ih _ _ _ hocc2 (fun x hx => hdel x (List.mem_cons_of_mem _ hx))
        (fun x hx => hcontent x (List.mem_cons_of_mem _ hx)) hfire2
    · by_cases heq : d.data = src.data
      · rw [dups_cons_synced sources d rest st n re src hres heq]
        have hfire2 : ∃ x, x ∈ rest ∧ ∃ src, sourceSecretsLookup sources (fromAnnStr x) = some src ∧
            ¬(x.data = src.data) ∧ x.nspace = a ∧ src.name = b := by
          obtain ⟨x, hx, src2, hsrc2, hne2, hrest⟩ := hfire
          rcases List.mem_cons.mp hx with rfl | hx2
          · rw [hres] at hsrc2
            cases hsrc2
            exact absurd heq hne2
          · exact ⟨x, hx2, src2, hsrc2, hne2, hrest⟩
        exact ih _ _ _ hocc (fun x hx => hdel x (List.mem_cons_of_mem _ hx))
          (fun x hx => hcontent x (List.mem_cons_of_mem _ hx)) hfire2
      · rw [dups_cons_divergent_any sources d rest st n re src hres heq]
        show lookupSecret (reconcileDuplicates pureEnv sources rest
          (semUpdate st (newDuplicateSecret src d.nspace)).1 (n + 1) _).store a b = _
        by_cases hk : d.nspace = a ∧ src.name = b
        · have hc : newDuplicateSecret src d.nspace = c :=
            hcontent d (List.mem_cons_self _ _) src hres heq hk.1 hk.2
          have hocc2 : (lookupSecret st (newDuplicateSecret src d.nspace).nspace
              (newDuplicateSecret src d.nspace).name).isSome := by
            show (lookupSecret st d.nspace src.name).isSome
            rw [hk.1, hk.2]
            exact hocc
          have hafter : lookupSecret
              (semUpdate st (newDuplicateSecret src d.nspace)).1 a b = some c := by
            rw [← hk.1, ← hk.2, ← hc]
            exact semUpdate_lookup_self hocc2
          exact dups_inv sources rest _ _ _ hafter
            (fun x hx => hdel x (List.mem_cons_of_mem _ hx))
            (fun x hx => hcontent x (List.mem_cons_of_mem _ hx))
        · have hne : ¬((newDuplicateSecret src d.nspace).nspace = a ∧
              (newDuplicateSecret src d.nspace).name = b) := by
            intro hc2
            exact hk ⟨hc2.1, hc2.2⟩
          have hocc2 : (lookupSecret (semUpdate st
              (newDuplicateSecret src d.nspace)).1 a b).isSome := by
            rw [semUpdate_lookup_other hne]
            exact hocc
          have hfire2 : ∃ x, x ∈ rest ∧ ∃ src, sourceSecretsLookup sources (fromAnnStr x) = some src ∧
              ¬(x.data = src.data) ∧ x.nspace = a ∧ src.name = b := by
            obtain ⟨x, hx, src2, hsrc2, hne2, h1, h2⟩ := hfire
            rcases List.mem_cons.mp hx with rfl | hx2
            · rw [hres] at hsrc2
              cases hsrc2
              exact absurd ⟨h1, h2⟩ hk
            · exact ⟨x, hx2, src2, hsrc2, hne2, h1, h2⟩
          exact ih _ _ _ hocc2 (fun x hx => hdel x (List.mem_cons_of_mem _ hx))
            (fun x hx => hcontent x (List.mem_cons_of_mem _ hx)) hfire2

theorem dups_delete_mem (sources : List Secret) {d0 : Secret} :
    ∀ (dups : List Secret) (st : Store) (n : Nat) (re : Option ApiErr),
    d0 ∈ dups → sourceSecretsLookup sources (fromAnnStr d0) = none →
    ∃ r, (Op.delete d0.nspace d0.name, r) ∈
      (reconcileDuplicates pureEnv sources dups st n re).log := by
  intro dups
  induction dups with
  | nil => intro st n re h _; cases h
  | cons d rest ih =>
    intro st n re hmem hnone
    rcases hres : sourceSecretsLookup sources (fromAnnStr d) with _ | src
    · rw [dups_cons_orphan sources d rest st n re hres]
      rcases List.mem_cons.mp hmem with rfl | hm2
      · exact ⟨_, List.mem_cons_self _ _⟩
      · obtain ⟨r, hr⟩ := ih _ (n + 1) re hm2 hnone
        exact ⟨r, List.mem_cons_of_mem _ hr⟩
    · rcases List.mem_cons.mp hmem with rfl | hm2
      · rw [hres] at hnone; cases hnone
      · by_cases heq : d.data = src.data
        · rw [dups_cons_synced sources d rest st n re src hres heq]
          exact ih _ _ _ hm2 hnone
        · rw [dups_cons_divergent_any sources d rest st n re src hres heq]
          obtain ⟨r, hr⟩ := ih _ (n + 1) _ hm2 hnone
          exact ⟨r, List.mem_cons_of_mem _ hr⟩

theorem dups_update_mem (sources : List Secret) {d0 src0 : Secret} :
    ∀ (dups : List Secret) (st : Store) (n : Nat) (re : Option ApiErr),
    d0 ∈ dups → sourceSecretsLookup sources (fromAnnStr d0) = some src0 →
    ¬(d0.data = src0.data) →
    ∃ r, (Op.update (newDuplicateSecret src0 d0.nspace), r) ∈
      (reconcileDuplicates pureEnv sources dups st n re).log := by
  intro dups
  induction dups with
  | nil => intro st n re h _ _; cases h
  | cons d rest ih =>
    intro st n re hmem hsrc hne
    rcases hres : sourceSecretsLookup sources (fromAnnStr d) with _ | src
    · rw [dups_cons_orphan sources d rest st n re hres]
      rcases List.mem_cons.mp hmem with rfl | hm2
      · rw [hres] at hsrc; cases hsrc
      · obtain ⟨r, hr⟩ := ih _ (n + 1) re hm2 hsrc hne
        exact ⟨r, List.mem_cons_of_mem _ hr⟩
    · by_cases heq : d.data = src.data
      · rw [dups_cons_synced sources d rest st n re src hres heq]
        rcases List.mem_cons.mp hmem with rfl | hm2
        · rw [hres] at hsrc
          cases hsrc
          exact absurd heq hne
        · exact ih _ _ _ hm2 hsrc hne
      · rw [dups_cons_divergent_any sources d rest st n re src hres heq]
        rcases List.mem_cons.mp hmem with rfl | hm2
        · rw [hres] at hsrc
          cases hsrc
          exact ⟨_, List.mem_cons_self _ _⟩
        · obtain ⟨r, hr⟩ := ih _ (n + 1) _ hm2 hsrc hne
          exact ⟨r, List.mem_cons_of_mem _ hr⟩

/-! ### Decomposition of a pure cycle -/

theorem runCycle_store (store0 : Store) (nss : List Namespace) :
    (runCycle store0 nss).store =
      (reconcileDuplicates pureEnv (findAllSourceSecrets store0)
        (findAllDuplicateSecrets store0)
        (reconcileSources pureEnv (findNonTerminatingNamespaces nss)
          (findAllSourceSecrets store0) store0 2 none).store
        (reconcileSources pureEnv (findNonTerminatingNamespaces nss)
          (findAllSourceSecrets store0) store0 2 none).n none).store := rfl

theorem runCycle_log (store0 : Store) (nss : List Namespace) :
    (runCycle store0 nss).log =
      (Op.listSecrets, none) :: (Op.listNamespaces, none) ::
        ((reconcileSources pureEnv (findNonTerminatingNamespaces nss)
            (findAllSourceSecrets store0) store0 2 none).log ++
          (reconcileDuplicates pureEnv (findAllSourceSecrets store0)
            (findAllDuplicateSecrets store0)
            (reconcileSources pureEnv (findNonTerminatingNamespaces nss)
              (findAllSourceSecrets store0) store0 2 none).store
            (reconcileSources pureEnv (findNonTerminatingNamespaces nss)
              (findAllSourceSecrets store0) store0 2 none).n none).log) := rfl

theorem sourceSecretsLookup_mem {sources : List Secret} {k : String} {src : Secret}
    (h : sourceSecretsLookup sources k = some src) :
    src ∈ sources ∧ objectKeyString src.nspace src.name = k := by
  unfold sourceSecretsLookup at h
  constructor
  · exact List.mem_reverse.mp (List.mem_of_find?_eq_some h)
  · have hp := List.find?_some h
    simpa using hp

theorem sourceSecretsLookup_isSome {sources : List Secret} {k : String}
    (h : ∃ s, s ∈ sources ∧ objectKeyString s.nspace s.name = k) :
    (sourceSecretsLookup sources k).isSome := by
  unfold sourceSecretsLookup
  rw [List.find?_isSome]
  obtain ⟨s, hs, hk⟩ := h
  exact ⟨s, List.mem_reverse.mpr hs, by simp [hk]⟩

/-! ### Claim C1 — non-clobber -/

/-- C1 counterexample: the claim "no cycle ever issues a create, update, or
delete against an unrelated secret occupying (N, S.name), and it is
unchanged" is false as stated.  Concretely: `unrelatedU` (no annotations at
all) occupies (n2, s), `srcS` is a source named s, namespace n2 is eligible
— yet the cycle issues an update targeting (n2, s) (the redirected rebuild
of the name-mismatched duplicate `mismatchD`) and replaces the unrelated
secret's payload. -/
theorem c1_nonclobber_counterexample :
    (isSecretDuplicatorSource unrelatedU = false ∧ isSecretDuplicated unrelatedU = false ∧
      srcS ∈ findAllSourceSecrets [srcS, unrelatedU, mismatchD] ∧
      unrelatedU ∈ [srcS, unrelatedU, mismatchD] ∧
      nsN2 ∈ [nsN1, nsN2] ∧ nsN2.phase ≠ "Terminating" ∧
      unrelatedU.nspace = nsN2.name ∧ unrelatedU.name = srcS.name) ∧
    logHasWriteAt (runCycle [srcS, unrelatedU, mismatchD] [nsN1, nsN2]).log
      unrelatedU.nspace unrelatedU.name = true ∧
    lookupSecret (runCycle [srcS, unrelatedU, mismatchD] [nsN1, nsN2]).store
      unrelatedU.nspace unrelatedU.name ≠ some unrelatedU := by
  refine ⟨by decide, by decide, by decide⟩

/-- C1 (amended): an unrelated secret (no `duplicate: "true"` marker, not
classified as a duplicate) occupying (N, S.name) for a source S and
eligible namespace N never receives a create or delete, and — provided no
classified duplicate in its namespace references a live source bearing its
name with divergent payload (the redirected-update case of C10) — no
update either, and the cycle leaves it in place unchanged. -/
theorem c1_nonclobber_amended
    (store0 : Store) (nss : List Namespace) (U S : Secret) (N : Namespace)
    (hwf : wfStore store0)
    (hU : U ∈ store0)
    (hUsrc : isSecretDuplicatorSource U = false)
    (hUdup : isSecretDuplicated U = false)
    (hS : S ∈ findAllSourceSecrets store0)
    (hN : N ∈ nss) (hNel : N.phase ≠ "Terminating")
    (hUat : U.nspace = N.name) (hUname : U.name = S.name)
    (hguard : ∀ D ∈ findAllDuplicateSecrets store0, ∀ src,
      sourceSecretsLookup (findAllSourceSecrets store0) (fromAnnStr D) = some src →
      ¬(D.data = src.data) → ¬(D.nspace = U.nspace ∧ src.name = U.name)) :
    (∀ e ∈ (runCycle store0 nss).log, isWriteOp e.1 = true →
      opTargets e.1 U.nspace U.name = false) ∧
    lookupSecret (runCycle store0 nss).store U.nspace U.name = some U := by
  have h0 : lookupSecret store0 U.nspace U.name = some U := lookupSecret_of_mem_wf hwf hU
  have hdel : ∀ d ∈ findAllDuplicateSecrets store0,
      sourceSecretsLookup (findAllSourceSecrets store0) (fromAnnStr d) = none →
      ¬(d.nspace = U.nspace ∧ d.name = U.name) := by
    intro d hd _ hk
    have hd0 : d ∈ store0 ∧ isSecretDuplicated d = true := List.mem_filter.mp hd
    have hdu : d = U := wf_key_unique hwf hd0.1 hU ⟨hk.1, hk.2⟩
    rw [hdu] at hd0
    exact Bool.noConfusion (hUdup.symm.trans hd0.2)
  constructor
  · intro e he hw
    rw [runCycle_log] at he
    rcases List.mem_cons.mp he with rfl | he1
    · cases hw
    rcases List.mem_cons.mp he1 with rfl | he2
    · cases hw
    rcases List.mem_append.mp he2 with hr1 | hr2
    · exact sources_no_write_at (findNonTerminatingNamespaces nss)
        (findAllSourceSecrets store0) store0 2 none (by rw [h0]; rfl) e hr1 hw
    · exact dups_no_write_at (findAllSourceSecrets store0) (findAllDuplicateSecrets store0)
        _ _ none hdel hguard e hr2
  · rw [runCycle_store]
    rw [dups_preserve (findAllSourceSecrets store0) (findAllDuplicateSecrets store0)
      _ _ none hdel hguard]
    exact sources_preserve_some (findNonTerminatingNamespaces nss)
      (findAllSourceSecrets store0) store0 2 none h0

/-- C1 witness: the amended non-clobber theorem applied to the concrete
store [srcS, unrelatedU]: the unrelated occupant of (n2, s) survives a
cycle untouched. -/
theorem c1_nonclobber_witness :
    lookupSecret (runCycle [srcS, unrelatedU] [nsN1, nsN2]).store
      unrelatedU.nspace unrelatedU.name = some unrelatedU :=
  (c1_nonclobber_amended [srcS, unrelatedU] [nsN1, nsN2] unrelatedU srcS nsN2
    (by decide) (by decide) (by decide) (by decide) (by decide) (by decide)
    (by decide) (by decide) (by decide) (by decide)).2

/-! ### Claim C6 — own-namespace handling in the source pass -/

/-- C6 counterexample: the source pass does not skip the pairing of a
source with its own namespace.  With store [srcS] and only srcS's own
namespace n1, the cycle still issues a Get at (n1, s) — the pairing is
processed, not skipped. -/
theorem c6_own_namespace_counterexample :
    srcS ∈ findAllSourceSecrets [srcS] ∧ nsN1 ∈ [nsN1] ∧ nsN1.name = srcS.nspace ∧
    (Op.get srcS.nspace srcS.name, none) ∈ (runCycle [srcS] [nsN1]).log := by
  decide

/-- C6 (amended): the source pass does not skip the source's own namespace
— when that namespace is eligible it issues a Get at (S.namespace, S.name)
— but because the source itself occupies that slot the Get finds an object
and no Create targeting (S.namespace, S.name) is ever issued by the
cycle. -/
theorem c6_own_namespace_amended
    (store0 : Store) (nss : List Namespace) (S : Secret) (N : Namespace)
    (hS : S ∈ findAllSourceSecrets store0)
    (hN : N ∈ nss) (hNel : N.phase ≠ "Terminating") (hNname : N.name = S.nspace) :
    (∃ r, (Op.get S.nspace S.name, r) ∈ (runCycle store0 nss).log) ∧
    (∀ e ∈ (runCycle store0 nss).log, ∀ s, e.1 = Op.create s →
      ¬(s.nspace = S.nspace ∧ s.name = S.name)) := by
  have hSmem : S ∈ store0 ∧ isSecretDuplicatorSource S = true := List.mem_filter.mp hS
  have hocc : (lookupSecret store0 S.nspace S.name).isSome :=
    lookupSecret_isSome_of_mem hSmem.1 rfl rfl
  have hNel2 : N ∈ findNonTerminatingNamespaces nss := by
    apply List.mem_filter.mpr
    refine ⟨hN, ?_⟩
    simp [hNel]
  constructor
  · obtain ⟨r, hr⟩ := sources_get_mem (findNonTerminatingNamespaces nss)
      (findAllSourceSecrets store0) store0 2 none hS hNel2
    rw [hNname] at hr
    exact ⟨r, by
      rw [runCycle_log]
      exact List.mem_cons_of_mem _ (List.mem_cons_of_mem _ (List.mem_append.mpr (Or.inl hr)))⟩
  · intro e he s hc hk
    rw [runCycle_log] at he
    rcases List.mem_cons.mp he with rfl | he1
    · cases hc
    rcases List.mem_cons.mp he1 with rfl | he2
    · cases hc
    rcases List.mem_append.mp he2 with hr1 | hr2
    · have hw : isWriteOp e.1 = true := by rw [hc]; rfl
      have := sources_no_write_at (findNonTerminatingNamespaces nss)
        (findAllSourceSecrets store0) store0 2 none hocc e hr1 hw
      rw [hc] at this
      have hkey : secretHasKey s S.nspace S.name = true := secretHasKey_iff.mpr hk
      exact Bool.noConfusion ((this.symm.trans hkey))
    · rcases dups_log_shape (findAllSourceSecrets store0) (findAllDuplicateSecrets store0)
        _ _ none e hr2 with ⟨d, _, _, r, rfl⟩ | ⟨d, src, _, _, _, r, rfl⟩
      · cases hc
      · cases hc

/-- C6 witness: the amended theorem at the concrete store [srcS] with only
the source's own namespace: the Get for the own-namespace pairing is in the
log. -/
theorem c6_own_namespace_witness :
    ∃ r, (Op.get srcS.nspace srcS.name, r) ∈ (runCycle [srcS] [nsN1]).log :=
  (c6_own_namespace_amended [srcS] [nsN1] srcS nsN1
    (by decide) (by decide) (by decide) (by decide)).1

/-! ### Claim C5 — terminating-namespace handling -/

/-- C5 counterexample: an existing duplicate inside a Terminating namespace
is NOT left alone by the cycle.  `orphanTermD` lives in the terminating
namespace tns and references a dead source; the cycle issues a delete
against it and removes it from the store. -/
theorem c5_terminating_counterexample :
    nsTerm.phase = "Terminating" ∧
    orphanTermD.nspace = nsTerm.name ∧
    orphanTermD ∈ findAllDuplicateSecrets [orphanTermD] ∧
    (Op.delete orphanTermD.nspace orphanTermD.name, none)
      ∈ (runCycle [orphanTermD] [nsTerm]).log ∧
    lookupSecret (runCycle [orphanTermD] [nsTerm]).store
      orphanTermD.nspace orphanTermD.name = none := by
  decide

/-- C5 (amended): a Terminating namespace is never chosen as a creation
target — every Create issued by a cycle is aimed at the name of a listed
namespace whose phase is not Terminating — but the duplicate pass does
NOT exempt terminating namespaces: a classified duplicate whose source
annotation resolves to no live source receives a delete no matter which
namespace it lives in. -/
theorem c5_terminating_amended (store0 : Store) (nss : List Namespace) :
    (∀ e ∈ (runCycle store0 nss).log, ∀ s, e.1 = Op.create s →
      ∃ ns, ns ∈ nss ∧ ns.phase ≠ "Terminating" ∧ s.nspace = ns.name) ∧
    (∀ D ∈ findAllDuplicateSecrets store0,
      sourceSecretsLookup (findAllSourceSecrets store0) (fromAnnStr D) = none →
      ∃ r, (Op.delete D.nspace D.name, r) ∈ (runCycle store0 nss).log) := by
  constructor
  · intro e he s hc
    rw [runCycle_log] at he
    rcases List.mem_cons.mp he with rfl | he1
    · cases hc
    rcases List.mem_cons.mp he1 with rfl | he2
    · cases hc
    rcases List.mem_append.mp he2 with hr1 | hr2
    · rcases sources_log_shape (findNonTerminatingNamespaces nss)
        (findAllSourceSecrets store0) store0 2 none e hr1 with
        ⟨x, y, r, rfl⟩ | ⟨s2, hs2, ns, hns, r, rfl⟩
      · cases hc
      · have hns2 : ns ∈ nss ∧ (ns.phase != "Terminating") = true := List.mem_filter.mp hns
        refine ⟨ns, hns2.1, by simpa using hns2.2, ?_⟩
        have h2 : Op.create (newDuplicateSecret s2 ns.name) = Op.create s := hc
        injection h2 with h3
        rw [← h3]
        rfl
    · rcases dups_log_shape (findAllSourceSecrets store0) (findAllDuplicateSecrets store0)
        _ _ none e hr2 with ⟨d, _, _, r, rfl⟩ | ⟨d, src, _, _, _, r, rfl⟩
      · cases hc
      · cases hc
  · intro D hD hres
    obtain ⟨r, hr⟩ := dups_delete_mem (findAllSourceSecrets store0)
      (findAllDuplicateSecrets store0) _ _ none hD hres
    refine ⟨r, ?_⟩
    rw [runCycle_log]
    exact List.mem_cons_of_mem _ (List.mem_cons_of_mem _ (List.mem_append.mpr (Or.inr hr)))

/-- C5 witness: the amended theorem applied to the concrete store holding
only the orphaned duplicate in the terminating namespace: a delete against
it appears in the cycle's log. -/
theorem c5_terminating_witness :
    ∃ r, (Op.delete orphanTermD.nspace orphanTermD.name, r)
      ∈ (runCycle [orphanTermD] [nsTerm]).log :=
  (c5_terminating_amended [orphanTermD] [nsTerm]).2 orphanTermD (by decide) (by decide)

/-! ### Claim C7 — malformed-annotation tolerance -/

theorem isSecretDuplicated_eq_false_of_malformed {M : Secret} {v : String}
    (hv : lookupAnn M.anns duplicatorFromAnnotationKey = some v)
    (hm : (splitParts (Char.ofNat 47) v.toList).length ≠ 2) :
    isSecretDuplicated M = false := by
  unfold isSecretDuplicated
  rw [hv]
  have hm2 : ¬(splitParts (Char.ofNat 47) v.data).length = 2 := hm
  simp [hm2]

/-- C7 counterexample: a secret with a malformed `source` annotation can
still be hit by an update.  `malformedM` (annotation value "noslash")
occupies (n2, s); the name-mismatched duplicate `mismatchD` redirects its
rebuilt update onto that slot, and the cycle overwrites `malformedM`. -/
theorem c7_malformed_counterexample :
    lookupAnn malformedM.anns duplicatorFromAnnotationKey = some "noslash" ∧
    (splitParts (Char.ofNat 47) "noslash".toList).length ≠ 2 ∧
    malformedM ∉ findAllDuplicateSecrets [srcS, malformedM, mismatchD] ∧
    logHasWriteAt (runCycle [srcS, malformedM, mismatchD] [nsN1, nsN2]).log
      malformedM.nspace malformedM.name = true ∧
    lookupSecret (runCycle [srcS, malformedM, mismatchD] [nsN1, nsN2]).store
      malformedM.nspace malformedM.name ≠ some malformedM := by
  decide

/-- C7 (amended): a secret whose `source` annotation does not split into
exactly two segments is excluded from duplicate classification entirely
(so the duplicate pass itself never deletes or updates it), and — provided
no classified duplicate in its namespace redirects a rebuilt update onto
its name (the C10 redirect) — no write of any kind is issued against it
and the cycle leaves it unchanged. -/
theorem c7_malformed_amended
    (store0 : Store) (nss : List Namespace) (M : Secret) (v : String)
    (hwf : wfStore store0)
    (hM : M ∈ store0)
    (hv : lookupAnn M.anns duplicatorFromAnnotationKey = some v)
    (hm : (splitParts (Char.ofNat 47) v.toList).length ≠ 2)
    (hguard : ∀ D ∈ findAllDuplicateSecrets store0, ∀ src,
      sourceSecretsLookup (findAllSourceSecrets store0) (fromAnnStr D) = some src →
      ¬(D.data = src.data) → ¬(D.nspace = M.nspace ∧ src.name = M.name)) :
    M ∉ findAllDuplicateSecrets store0 ∧
    (∀ e ∈ (runCycle store0 nss).log, isWriteOp e.1 = true →
      opTargets e.1 M.nspace M.name = false) ∧
    lookupSecret (runCycle store0 nss).store M.nspace M.name = some M := by
  have hMdup : isSecretDuplicated M = false := isSecretDuplicated_eq_false_of_malformed hv hm
  have hnotin : M ∉ findAllDuplicateSecrets store0 := by
    intro hin
    have h2 := List.mem_filter.mp hin
    exact Bool.noConfusion (hMdup.symm.trans h2.2)
  have h0 : lookupSecret store0 M.nspace M.name = some M := lookupSecret_of_mem_wf hwf hM
  have hdel : ∀ d ∈ findAllDuplicateSecrets store0,
      sourceSecretsLookup (findAllSourceSecrets store0) (fromAnnStr d) = none →
      ¬(d.nspace = M.nspace ∧ d.name = M.name) := by
    intro d hd _ hk
    have hd0 : d ∈ store0 ∧ isSecretDuplicated d = true := List.mem_filter.mp hd
    have hdu : d = M := wf_key_unique hwf hd0.1 hM ⟨hk.1, hk.2⟩
    rw [hdu] at hd0
    exact Bool.noConfusion (hMdup.symm.trans hd0.2)
  refine ⟨hnotin, ?_, ?_⟩
  · intro e he hw
    rw [runCycle_log] at he
    rcases List.mem_cons.mp he with rfl | he1
    · cases hw
    rcases List.mem_cons.mp he1 with rfl | he2
    · cases hw
    rcases List.mem_append.mp he2 with hr1 | hr2
    · exact sources_no_write_at (findNonTerminatingNamespaces nss)
        (findAllSourceSecrets store0) store0 2 none (by rw [h0]; rfl) e hr1 hw
    · exact dups_no_write_at (findAllSourceSecrets store0) (findAllDuplicateSecrets store0)
        _ _ none hdel hguard e hr2
  · rw [runCycle_store]
    rw [dups_preserve (findAllSourceSecrets store0) (findAllDuplicateSecrets store0)
      _ _ none hdel hguard]
    exact sources_preserve_some (findNonTerminatingNamespaces nss)
      (findAllSourceSecrets store0) store0 2 none h0

/-- C7 witness: the amended theorem at the concrete store [srcS,
malformedM]: the malformed secret is unclassified and survives the cycle
unchanged. -/
theorem c7_malformed_witness :
    malformedM ∉ findAllDuplicateSecrets [srcS, malformedM] ∧
    lookupSecret (runCycle [srcS, malformedM] [nsN1, nsN2]).store
      malformedM.nspace malformedM.name = some malformedM :=
  ⟨(c7_malformed_amended [srcS, malformedM] [nsN1, nsN2] malformedM "noslash"
      (by decide) (by decide) (by decide) (by decide) (by decide)).1,
   (c7_malformed_amended [srcS, malformedM] [nsN1, nsN2] malformedM "noslash"
      (by decide) (by decide) (by decide) (by decide) (by decide)).2.2⟩

/-! ### Claim C4 — divergence correction -/

/-- C4 counterexample: a duplicate whose payload equals its live source's
but whose TYPE differs is not corrected.  `typeDiffD` (type
kubernetes.io/tls) references srcS (type Opaque) with identical payload;
the cycle reports no error, issues no update, and leaves the divergent
type in place. -/
theorem c4_divergence_counterexample :
    typeDiffD ∈ findAllDuplicateSecrets [srcS, typeDiffD] ∧
    sourceSecretsLookup (findAllSourceSecrets [srcS, typeDiffD]) (fromAnnStr typeDiffD)
      = some srcS ∧
    typeDiffD.type ≠ srcS.type ∧
    (runCycle [srcS, typeDiffD] [nsN1, nsN2]).err = false ∧
    lookupSecret (runCycle [srcS, typeDiffD] [nsN1, nsN2]).store
      typeDiffD.nspace typeDiffD.name = some typeDiffD ∧
    (runCycle [srcS, typeDiffD] [nsN1, nsN2]).log =
      [(Op.listSecrets, none), (Op.listNamespaces, none),
       (Op.get "n1" "s", none), (Op.get "n2" "s", none)] := by
  decide

/-- C4 (amended): only PAYLOAD divergence triggers correction.  For a
classified duplicate D whose source annotation resolves to a live source
src with `D.data ≠ src.data`, whose own name matches the source's, and
onto whose slot no other divergent duplicate redirects a different
rebuild, the duplicate pass issues an update carrying the full rebuild
`newDuplicateSecret src D.namespace` (payload, type and annotations
replaced wholesale), and after the cycle the object at D's slot is exactly
that rebuild — payload and type equal the source's.  A duplicate whose
payload matches but whose type differs is left untouched. -/
theorem c4_divergence_amended
    (store0 : Store) (nss : List Namespace) (D src : Secret)
    (hwf : wfStore store0)
    (hD : D ∈ findAllDuplicateSecrets store0)
    (hres : sourceSecretsLookup (findAllSourceSecrets store0) (fromAnnStr D) = some src)
    (hne : ¬(D.data = src.data))
    (hname : src.name = D.name)
    (hguard : ∀ E ∈ findAllDuplicateSecrets store0, ∀ src2,
      sourceSecretsLookup (findAllSourceSecrets store0) (fromAnnStr E) = some src2 →
      ¬(E.data = src2.data) → E.nspace = D.nspace → src2.name = D.name →
      newDuplicateSecret src2 E.nspace = newDuplicateSecret src D.nspace) :
    (∃ r, (Op.update (newDuplicateSecret src D.nspace), r) ∈ (runCycle store0 nss).log) ∧
    lookupSecret (runCycle store0 nss).store D.nspace D.name
      = some (newDuplicateSecret src D.nspace) ∧
    (newDuplicateSecret src D.nspace).data = src.data ∧
    (newDuplicateSecret src D.nspace).type = src.type := by
  have hDmem : D ∈ store0 ∧ isSecretDuplicated D = true := List.mem_filter.mp hD
  have h0 : (lookupSecret store0 D.nspace D.name).isSome :=
    lookupSecret_isSome_of_mem hDmem.1 rfl rfl
  have hdel : ∀ d ∈ findAllDuplicateSecrets store0,
      sourceSecretsLookup (findAllSourceSecrets store0) (fromAnnStr d) = none →
      ¬(d.nspace = D.nspace ∧ d.name = D.name) := by
    intro d hd hdead hk
    have hd0 : d ∈ store0 ∧ isSecretDuplicated d = true := List.mem_filter.mp hd
    have hdu : d = D := wf_key_unique hwf hd0.1 hDmem.1 ⟨hk.1, hk.2⟩
    rw [hdu, hres] at hdead
    cases hdead
  refine ⟨?_, ?_, rfl, rfl⟩
  · obtain ⟨r, hr⟩ := dups_update_mem (findAllSourceSecrets store0)
      (findAllDuplicateSecrets store0) _ _ none hD hres hne
    refine ⟨r, ?_⟩
    rw [runCycle_log]
    exact List.mem_cons_of_mem _ (List.mem_cons_of_mem _ (List.mem_append.mpr (Or.inr hr)))
  · rw [runCycle_store]
    apply dups_fire (findAllSourceSecrets store0) (findAllDuplicateSecrets store0)
      _ _ none
    · exact sources_isSome (findNonTerminatingNamespaces nss)
        (findAllSourceSecrets store0) store0 2 none h0
    · exact hdel
    · intro d hd src2 hres2 hne2 hnsp hnm
      exact hguard d hd src2 hres2 hne2 hnsp hnm
    · exact ⟨D, hD, src, hres, hne, rfl, hname⟩

/-- C4 witness: the amended theorem at the concrete store [srcS,
divergentD]: after the cycle the duplicate's slot holds the full rebuild of
srcS. -/
theorem c4_divergence_witness :
    lookupSecret (runCycle [srcS, divergentD] [nsN1, nsN2]).store
      divergentD.nspace divergentD.name
      = some (newDuplicateSecret srcS divergentD.nspace) :=
  (c4_divergence_amended [srcS, divergentD] [nsN1, nsN2] divergentD srcS
    (by decide) (by decide) (by decide) (by decide) (by decide) (by decide)).2.1

/-! ### Claim C9 — dual-role secrets -/

theorem newDuplicateSecret_not_source (s : Secret) (a : String) :
    isSecretDuplicatorSource (newDuplicateSecret s a) = false := by
  simp [isSecretDuplicatorSource, newDuplicateSecret, lookupAnn,
    duplicatorFromAnnotationKey, duplicatorDuplicateAnnotationKey]

/-- C9 counterexample: a dual-role secret whose name differs from the name
component of its source annotation is NOT overwritten by the duplicate
pass: `dualX` at (n2, x) references n1/s with divergent payload, yet after
an error-free cycle it still sits at (n2, x) unchanged, `duplicate: "true"`
marker included — the rebuilt update went to (n2, s) instead. -/
theorem c9_dualrole_counterexample :
    dualX ∈ findAllSourceSecrets [srcS, dualX] ∧
    dualX ∈ findAllDuplicateSecrets [srcS, dualX] ∧
    sourceSecretsLookup (findAllSourceSecrets [srcS, dualX]) (fromAnnStr dualX) = some srcS ∧
    ¬(dualX.data = srcS.data) ∧
    (runCycle [srcS, dualX] [nsN1, nsN2]).err = false ∧
    lookupSecret (runCycle [srcS, dualX] [nsN1, nsN2]).store dualX.nspace dualX.name
      = some dualX ∧
    isSecretDuplicatorSource dualX = true := by
  decide

/-- C9 (amended): a secret carrying both `duplicate: "true"` and a
well-formed `source` annotation is classified as a source AND as a
duplicate, so both passes process it; if its payload differs from its
referenced live source's and additionally its own name equals the
referenced source's name (and no other divergent duplicate redirects a
different rebuild onto its slot), the duplicate pass overwrites it with
`newDuplicateSecret src X.namespace`, whose annotation map holds only the
`source` key — the `duplicate: "true"` marker is gone and the slot's
occupant is no longer a source. -/
theorem c9_dualrole_amended
    (store0 : Store) (nss : List Namespace) (X src : Secret)
    (hwf : wfStore store0)
    (hX : X ∈ store0)
    (hXsrc : isSecretDuplicatorSource X = true)
    (hXdup : isSecretDuplicated X = true)
    (hres : sourceSecretsLookup (findAllSourceSecrets store0) (fromAnnStr X) = some src)
    (hne : ¬(X.data = src.data))
    (hname : src.name = X.name)
    (hguard : ∀ E ∈ findAllDuplicateSecrets store0, ∀ src2,
      sourceSecretsLookup (findAllSourceSecrets store0) (fromAnnStr E) = some src2 →
      ¬(E.data = src2.data) → E.nspace = X.nspace → src2.name = X.name →
      newDuplicateSecret src2 E.nspace = newDuplicateSecret src X.nspace) :
    X ∈ findAllSourceSecrets store0 ∧
    X ∈ findAllDuplicateSecrets store0 ∧
    lookupSecret (runCycle store0 nss).store X.nspace X.name
      = some (newDuplicateSecret src X.nspace) ∧
    isSecretDuplicatorSource (newDuplicateSecret src X.nspace) = false := by
  have hXs : X ∈ findAllSourceSecrets store0 := List.mem_filter.mpr ⟨hX, hXsrc⟩
  have hXd : X ∈ findAllDuplicateSecrets store0 := List.mem_filter.mpr ⟨hX, hXdup⟩
  have h0 : (lookupSecret store0 X.nspace X.name).isSome :=
    lookupSecret_isSome_of_mem hX rfl rfl
  have hdel : ∀ d ∈ findAllDuplicateSecrets store0,
      sourceSecretsLookup (findAllSourceSecrets store0) (fromAnnStr d) = none →
      ¬(d.nspace = X.nspace ∧ d.name = X.name) := by
    intro d hd hdead hk
    have hd0 : d ∈ store0 ∧ isSecretDuplicated d = true := List.mem_filter.mp hd
    have hdu : d = X := wf_key_unique hwf hd0.1 hX ⟨hk.1, hk.2⟩
    rw [hdu, hres] at hdead
    cases hdead
  refine ⟨hXs, hXd, ?_, newDuplicateSecret_not_source src X.nspace⟩
  rw [runCycle_store]
  apply dups_fire (findAllSourceSecrets store0) (findAllDuplicateSecrets store0)
    _ _ none
  · exact sources_isSome (findNonTerminatingNamespaces nss)
      (findAllSourceSecrets store0) store0 2 none h0
  · exact hdel
  · intro d hd src2 hres2 hne2 hnsp hnm
    exact hguard d hd src2 hres2 hne2 hnsp hnm
  · exact ⟨X, hXd, src, hres, hne, rfl, hname⟩

/-- C9 witness: the amended theorem at the concrete store [srcS, dualS]
(dual-role secret named like its referenced source): after the cycle its
slot holds the rebuild, which carries no duplicate marker. -/
theorem c9_dualrole_witness :
    lookupSecret (runCycle [srcS, dualS] [nsN1, nsN2]).store dualS.nspace dualS.name
      = some (newDuplicateSecret srcS dualS.nspace) ∧
    isSecretDuplicatorSource (newDuplicateSecret srcS dualS.nspace) = false :=
  ⟨(c9_dualrole_amended [srcS, dualS] [nsN1, nsN2] dualS srcS
      (by decide) (by decide) (by decide) (by decide) (by decide) (by decide) (by decide)
      (by decide)).2.2.1,
   (c9_dualrole_amended [srcS, dualS] [nsN1, nsN2] dualS srcS
      (by decide) (by decide) (by decide) (by decide) (by decide) (by decide) (by decide)
      (by decide)).2.2.2⟩

/-! ### Claim C10 — name-mismatch duplicates -/

/-- C10 counterexample: "D itself is left with its divergent payload
unchanged by the cycle" fails when another duplicate redirects onto D's own
slot.  `mismatchD` at (n2, d) satisfies all of C10's hypotheses (references
live source n1/s, divergent payload, name d ≠ s), yet `redirectE`
(references live source n1/d) rebuilds onto (n2, d) and overwrites
mismatchD in the same cycle. -/
theorem c10_mismatch_counterexample :
    mismatchD ∈ findAllDuplicateSecrets [srcS, srcD, mismatchD, redirectE] ∧
    sourceSecretsLookup (findAllSourceSecrets [srcS, srcD, mismatchD, redirectE])
      (fromAnnStr mismatchD) = some srcS ∧
    ¬(mismatchD.data = srcS.data) ∧ mismatchD.name ≠ srcS.name ∧
    (runCycle [srcS, srcD, mismatchD, redirectE] [nsN1, nsN2]).err = false ∧
    lookupSecret (runCycle [srcS, srcD, mismatchD, redirectE] [nsN1, nsN2]).store
      mismatchD.nspace mismatchD.name ≠ some mismatchD := by
  decide

/-- C10 (amended): for a classified duplicate D whose name differs from its
live source's name and whose payload diverges, the update issued on D's
behalf is the rebuild `newDuplicateSecret src D.namespace`, an object
carrying the source's name, so it targets (D.namespace, src.name), not D;
and provided no divergent duplicate (necessarily a different one)
redirects a rebuild onto D's own name in D's namespace, D itself is left
in place with its divergent payload unchanged. -/
theorem c10_mismatch_amended
    (store0 : Store) (nss : List Namespace) (D src : Secret)
    (hwf : wfStore store0)
    (hD : D ∈ findAllDuplicateSecrets store0)
    (hres : sourceSecretsLookup (findAllSourceSecrets store0) (fromAnnStr D) = some src)
    (hne : ¬(D.data = src.data))
    (hname : src.name ≠ D.name)
    (hguard : ∀ E ∈ findAllDuplicateSecrets store0, ∀ src2,
      sourceSecretsLookup (findAllSourceSecrets store0) (fromAnnStr E) = some src2 →
      ¬(E.data = src2.data) → ¬(E.nspace = D.nspace ∧ src2.name = D.name)) :
    (∃ r, (Op.update (newDuplicateSecret src D.nspace), r) ∈ (runCycle store0 nss).log) ∧
    (newDuplicateSecret src D.nspace).name = src.name ∧
    (newDuplicateSecret src D.nspace).name ≠ D.name ∧
    lookupSecret (runCycle store0 nss).store D.nspace D.name = some D := by
  have hDmem : D ∈ store0 ∧ isSecretDuplicated D = true := List.mem_filter.mp hD
  have h0 : lookupSecret store0 D.nspace D.name = some D :=
    lookupSecret_of_mem_wf hwf hDmem.1
  have hdel : ∀ d ∈ findAllDuplicateSecrets store0,
      sourceSecretsLookup (findAllSourceSecrets store0) (fromAnnStr d) = none →
      ¬(d.nspace = D.nspace ∧ d.name = D.name) := by
    intro d hd hdead hk
    have hd0 : d ∈ store0 ∧ isSecretDuplicated d = true := List.mem_filter.mp hd
    have hdu : d = D := wf_key_unique hwf hd0.1 hDmem.1 ⟨hk.1, hk.2⟩
    rw [hdu, hres] at hdead
    cases hdead
  refine ⟨?_, rfl, hname, ?_⟩
  · obtain ⟨r, hr⟩ := dups_update_mem (findAllSourceSecrets store0)
      (findAllDuplicateSecrets store0) _ _ none hD hres hne
    refine ⟨r, ?_⟩
    rw [runCycle_log]
    exact List.mem_cons_of_mem _ (List.mem_cons_of_mem _ (List.mem_append.mpr (Or.inr hr)))
  · rw [runCycle_store]
    rw [dups_preserve (findAllSourceSecrets store0) (findAllDuplicateSecrets store0)
      _ _ none hdel hguard]
    exact sources_preserve_some (findNonTerminatingNamespaces nss)
      (findAllSourceSecrets store0) store0 2 none h0

/-- C10 witness: the amended theorem at the concrete store [srcS,
mismatchD]: the redirected update appears in the log and mismatchD itself
survives the cycle unchanged. -/
theorem c10_mismatch_witness :
    (∃ r, (Op.update (newDuplicateSecret srcS mismatchD.nspace), r)
      ∈ (runCycle [srcS, mismatchD] [nsN1, nsN2]).log) ∧
    lookupSecret (runCycle [srcS, mismatchD] [nsN1, nsN2]).store
      mismatchD.nspace mismatchD.name = some mismatchD :=
  ⟨(c10_mismatch_amended [srcS, mismatchD] [nsN1, nsN2] mismatchD srcS
      (by decide) (by decide) (by decide) (by decide) (by decide) (by decide)).1,
   (c10_mismatch_amended [srcS, mismatchD] [nsN1, nsN2] mismatchD srcS
      (by decide) (by decide) (by decide) (by decide) (by decide) (by decide)).2.2.2⟩

/-! ### Claim C2 — convergence -/

/-- C2 counterexample: after an error-free cycle an eligible namespace can
fail to contain any secret named S.name at all.  `orphanD` occupies (n2, s)
and references a dead source; the cycle deletes it (and, having found the
slot occupied during the source pass, created nothing there), so n2 ends
the cycle without a secret named s. -/
theorem c2_convergence_counterexample :
    srcS ∈ findAllSourceSecrets [srcS, orphanD] ∧
    nsN2 ∈ [nsN1, nsN2] ∧ nsN2.phase ≠ "Terminating" ∧ nsN2.name ≠ srcS.nspace ∧
    (runCycle [srcS, orphanD] [nsN1, nsN2]).err = false ∧
    lookupSecret (runCycle [srcS, orphanD] [nsN1, nsN2]).store nsN2.name srcS.name
      = none := by
  decide

/-- C2 (amended): convergence in one cycle holds for slots that start
empty.  For a source S that is the only classified source bearing its
name, and an eligible namespace N in which no secret named S.name exists
at the start of the cycle, the cycle ends with (N, S.name) holding exactly
the mirror `newDuplicateSecret S N.name` — payload and type equal S's.  A
slot already occupied may instead keep an unrelated occupant, be
overwritten by a redirect, or even end empty (orphaned occupant deleted). -/
theorem c2_convergence_amended
    (store0 : Store) (nss : List Namespace) (S : Secret) (N : Namespace)
    (hS : S ∈ findAllSourceSecrets store0)
    (huniq : ∀ T ∈ findAllSourceSecrets store0, T.name = S.name → T = S)
    (hN : N ∈ nss) (hNel : N.phase ≠ "Terminating") (hNown : N.name ≠ S.nspace)
    (hempty : lookupSecret store0 N.name S.name = none) :
    lookupSecret (runCycle store0 nss).store N.name S.name
      = some (newDuplicateSecret S N.name) ∧
    (newDuplicateSecret S N.name).data = S.data ∧
    (newDuplicateSecret S N.name).type = S.type := by
  have hNel2 : N ∈ findNonTerminatingNamespaces nss := by
    apply List.mem_filter.mpr
    refine ⟨hN, ?_⟩
    simp [hNel]
  have hfill : lookupSecret (reconcileSources pureEnv (findNonTerminatingNamespaces nss)
      (findAllSourceSecrets store0) store0 2 none).store N.name S.name
      = some (newDuplicateSecret S N.name) :=
    sources_fill_val (findNonTerminatingNamespaces nss) (findAllSourceSecrets store0)
      store0 2 none hS huniq hempty ⟨N, hNel2, rfl⟩
  refine ⟨?_, rfl, rfl⟩
  rw [runCycle_store]
  apply dups_inv (findAllSourceSecrets store0) (findAllDuplicateSecrets store0)
    _ _ none hfill
  · intro d hd _ hk
    have hd0 : d ∈ store0 ∧ isSecretDuplicated d = true := List.mem_filter.mp hd
    have : (lookupSecret store0 N.name S.name).isSome :=
      lookupSecret_isSome_of_mem hd0.1 hk.1 hk.2
    rw [hempty] at this
    cases this
  · intro d hd src2 hres2 hne2 hnsp hnm
    have hsrc2 : src2 ∈ findAllSourceSecrets store0 :=
      (sourceSecretsLookup_mem hres2).1
    have : src2 = S := huniq src2 hsrc2 hnm
    rw [this, hnsp]

/-- C2 witness: the amended convergence theorem at the concrete store
[srcS] with namespaces n1 and n2: after the cycle, n2 holds the mirror of
srcS. -/
theorem c2_convergence_witness :
    lookupSecret (runCycle [srcS] [nsN1, nsN2]).store nsN2.name srcS.name
      = some (newDuplicateSecret srcS nsN2.name) :=
  (c2_convergence_amended [srcS] [nsN1, nsN2] srcS nsN2
    (by decide) (by decide) (by decide) (by decide) (by decide) (by decide)).1

/-! ### Supporting lemmas for idempotence (claim C3) -/

theorem semDelete_subset {st : Store} {a b : String} {x : Secret}
    (h : x ∈ (semDelete st a b).1) : x ∈ st := by
  unfold semDelete at h
  rcases ho : lookupSecret st a b with _ | o
  · rw [ho] at h
    exact h
  · rw [ho] at h
    exact (List.mem_filter.mp h).1

theorem semUpdate_members {st : Store} {u : Secret} {x : Secret}
    (h : x ∈ (semUpdate st u).1) : x ∈ st ∨ x = u := by
  unfold semUpdate at h
  rcases ho : lookupSecret st u.nspace u.name with _ | o
  · rw [ho] at h
    exact Or.inl h
  · rw [ho] at h
    obtain ⟨t, ht, hft⟩ := List.mem_map.mp h
    by_cases hk : secretHasKey t u.nspace u.name = true
    · rw [if_pos hk] at hft
      exact Or.inr hft.symm
    · rw [if_neg hk] at hft
      exact Or.inl (hft ▸ ht)

theorem sourcesOne_noop (source : Secret) :
    ∀ (nss : List Namespace) (st : Store) (n : Nat) (re : Option ApiErr),
    (∀ ns ∈ nss, (lookupSecret st ns.name source.name).isSome) →
    (reconcileSourcesOne pureEnv source nss st n re).store = st ∧
    (∀ e ∈ (reconcileSourcesOne pureEnv source nss st n re).log, isWriteOp e.1 = false) := by
  intro nss
  induction nss with
  | nil => intro st n re _; exact ⟨rfl, fun e he => absurd he (List.not_mem_nil e)⟩
  | cons ns rest ih =>
    intro st n re h
    have hocc : (lookupSecret st ns.name source.name).isSome := h ns (List.mem_cons_self _ _)
    rw [sourcesOne_cons_found source ns rest st n re hocc]
    obtain ⟨hst, hlog⟩ := ih st (n + 1) re (fun x hx => h x (List.mem_cons_of_mem _ hx))
    refine ⟨hst, ?_⟩
    intro e he
    rcases List.mem_cons.mp he with rfl | he2
    · rfl
    · exact hlog e he2

theorem sources_noop (nssList : List Namespace) :
    ∀ (sources : List Secret) (st : Store) (n : Nat) (re : Option ApiErr),
    (∀ s ∈ sources, ∀ ns ∈ nssList, (lookupSecret st ns.name s.name).isSome) →
    (reconcileSources pureEnv nssList sources st n re).store = st ∧
    (∀ e ∈ (reconcileSources pureEnv nssList sources st n re).log, isWriteOp e.1 = false) := by
  intro sources
  induction sources with
  | nil => intro st n re _; exact ⟨rfl, fun e he => absurd he (List.not_mem_nil e)⟩
  | cons s rest ih =>
    intro st n re h
    rw [sources_cons]
    obtain ⟨h1st, h1log⟩ := sourcesOne_noop s nssList st n re (h s (List.mem_cons_self _ _))
    have hrest := ih (reconcileSourcesOne pureEnv s nssList st n re).store
      (reconcileSourcesOne pureEnv s nssList st n re).n
      (reconcileSourcesOne pureEnv s nssList st n re).err
      (by rw [h1st]; exact fun x hx => h x (List.mem_cons_of_mem _ hx))
    constructor
    · show (reconcileSources pureEnv nssList rest _ _ _).store = st
      rw [hrest.1, h1st]
    · intro e he
      rcases List.mem_append.mp he with he1 | he2
      · exact h1log e he1
      · exact hrest.2 e he2

theorem dups_noop (sources : List Secret) :
    ∀ (dups : List Secret) (st : Store) (n : Nat) (re : Option ApiErr),
    (∀ d ∈ dups, ∃ src, sourceSecretsLookup sources (fromAnnStr d) = some src ∧
      d.data = src.data) →
    (reconcileDuplicates pureEnv sources dups st n re).store = st ∧
    (reconcileDuplicates pureEnv sources dups st n re).log = [] := by
  intro dups
  induction dups with
  | nil => intro st n re _; exact ⟨rfl, rfl⟩
  | cons d rest ih =>
    intro st n re h
    obtain ⟨src, hres, heq⟩ := h d (List.mem_cons_self _ _)
    rw [dups_cons_synced sources d rest st n re src hres heq]
    exact ih st n re (fun x hx => h x (List.mem_cons_of_mem _ hx))

theorem dups_preserve_isSome (sources : List Secret) {a b : String} :
    ∀ (dups : List Secret) (st : Store) (n : Nat) (re : Option ApiErr),
    (∀ d ∈ dups, sourceSecretsLookup sources (fromAnnStr d) ≠ none) →
    (lookupSecret st a b).isSome →
    (lookupSecret (reconcileDuplicates pureEnv sources dups st n re).store a b).isSome := by
  intro dups
  induction dups with
  | nil => intro st n re _ h; exact h
  | cons d rest ih =>
    intro st n re hno hocc
    rcases hres : sourceSecretsLookup sources (fromAnnStr d) with _ | src
    · exact absurd hres (hno d (List.mem_cons_self _ _))
    · by_cases heq : d.data = src.data
      · rw [dups_cons_synced sources d rest st n re src hres heq]
        exact ih _ _ _ (fun x hx => hno x (List.mem_cons_of_mem _ hx)) hocc
      · rw [dups_cons_divergent_any sources d rest st n re src hres heq]
        show (lookupSecret (reconcileDuplicates pureEnv sources rest
          (semUpdate st (newDuplicateSecret src d.nspace)).1 (n + 1) _).store a b).isSome
        exact ih _ _ _ (fun x hx => hno x (List.mem_cons_of_mem _ hx))
          (semUpdate_lookup_isSome hocc)

theorem dups_members (sources : List Secret) :
    ∀ (dups : List Secret) (st : Store) (n : Nat) (re : Option ApiErr),
    ∀ x ∈ (reconcileDuplicates pureEnv sources dups st n re).store,
      x ∈ st ∨ ∃ d src, d ∈ dups ∧ sourceSecretsLookup sources (fromAnnStr d) = some src ∧
        ¬(d.data = src.data) ∧ x = newDuplicateSecret src d.nspace := by
  intro dups
  induction dups with
  | nil => intro st n re x hx; exact Or.inl hx
  | cons d rest ih =>
    intro st n re x hx
    rcases hres : sourceSecretsLookup sources (fromAnnStr d) with _ | src
    · rw [dups_cons_orphan sources d rest st n re hres] at hx
      rcases ih _ _ _ x hx with hin | ⟨d2, src2, hd2, h1, h2, h3⟩
      · exact Or.inl (semDelete_subset hin)
      · exact Or.inr ⟨d2, src2, List.mem_cons_of_mem _ hd2, h1, h2, h3⟩
    · by_cases heq : d.data = src.data
      · rw [dups_cons_synced sources d rest st n re src hres heq] at hx
        rcases ih _ _ _ x hx with hin | ⟨d2, src2, hd2, h1, h2, h3⟩
        · exact Or.inl hin
        · exact Or.inr ⟨d2, src2, List.mem_cons_of_mem _ hd2, h1, h2, h3⟩
      · rw [dups_cons_divergent_any sources d rest st n re src hres heq] at hx
        rcases ih _ _ _ x hx with hin | ⟨d2, src2, hd2, h1, h2, h3⟩
        · rcases semUpdate_members hin with hin2 | rfl
          · exact Or.inl hin2
          · exact Or.inr ⟨d, src, List.mem_cons_self _ _, hres, heq, rfl⟩
        · exact Or.inr ⟨d2, src2, List.mem_cons_of_mem _ hd2, h1, h2, h3⟩

theorem filter_eq_of_pointwise {α : Type} (p : α → Bool) (f : α → α) :
    ∀ l : List α, (∀ t ∈ l, p (f t) = p t ∧ (p t = true → f t = t)) →
    List.filter p (l.map f) = List.filter p l := by
  intro l
  induction l with
  | nil => intro _; rfl
  | cons t rest ih =>
    intro h
    obtain ⟨hp, hfix⟩ := h t (List.mem_cons_self _ _)
    rw [List.map_cons]
    rcases hpt : p t with _ | _
    · rw [List.filter_cons_of_neg (by rw [hp, hpt]; exact Bool.noConfusion),
        List.filter_cons_of_neg (by rw [hpt]; exact Bool.noConfusion)]
      exact ih (fun x hx => h x (List.mem_cons_of_mem _ hx))
    · rw [List.filter_cons_of_pos (by rw [hp, hpt]), List.filter_cons_of_pos hpt,
        hfix hpt]
      rw [ih (fun x hx => h x (List.mem_cons_of_mem _ hx))]

theorem fromAnnStr_mirror (s : Secret) (a : String) :
    fromAnnStr (newDuplicateSecret s a) = objectKeyString s.nspace s.name := by
  simp [fromAnnStr, newDuplicateSecret, lookupAnn]

theorem sourceSecretsLookup_self {sources : List Secret} {src : Secret}
    (hE : ∀ T ∈ sources, ∀ U ∈ sources,
      objectKeyString T.nspace T.name = objectKeyString U.nspace U.name → T = U)
    (hs : src ∈ sources) :
    sourceSecretsLookup sources (objectKeyString src.nspace src.name) = some src := by
  rcases h : sourceSecretsLookup sources (objectKeyString src.nspace src.name) with _ | src2
  · have h2 : (sourceSecretsLookup sources (objectKeyString src.nspace src.name)).isSome :=
      sourceSecretsLookup_isSome ⟨src, hs, rfl⟩
    rw [h] at h2
    cases h2
  · obtain ⟨hmem, hkey⟩ := sourceSecretsLookup_mem h
    rw [hE src2 hmem src hs hkey]

theorem dups_filter_sources (sources : List Secret) :
    ∀ (dups : List Secret) (st : Store) (n : Nat) (re : Option ApiErr),
    (∀ d ∈ dups, ∀ src, sourceSecretsLookup sources (fromAnnStr d) = some src →
      src.name = d.name) →
    (∀ d ∈ dups, sourceSecretsLookup sources (fromAnnStr d) ≠ none) →
    (∀ d ∈ dups, ∀ t ∈ st, t.nspace = d.nspace → t.name = d.name →
      isSecretDuplicatorSource t = false) →
    List.filter isSecretDuplicatorSource
      (reconcileDuplicates pureEnv sources dups st n re).store
      = List.filter isSecretDuplicatorSource st := by
  intro dups
  induction dups with
  | nil => intro st n re _ _ _; rfl
  | cons d rest ih =>
    intro st n re hnm hno hkeys
    rcases hres : sourceSecretsLookup sources (fromAnnStr d) with _ | src
    · exact absurd hres (hno d (List.mem_cons_self _ _))
    · by_cases heq : d.data = src.data
      · rw [dups_cons_synced sources d rest st n re src hres heq]
        exact ih _ _ _ (fun x hx => hnm x (List.mem_cons_of_mem _ hx))
          (fun x hx => hno x (List.mem_cons_of_mem _ hx))
          (fun x hx => hkeys x (List.mem_cons_of_mem _ hx))
      · rw [dups_cons_divergent_any sources d rest st n re src hres heq]
        show List.filter isSecretDuplicatorSource
          (reconcileDuplicates pureEnv sources rest
            (semUpdate st (newDuplicateSecret src d.nspace)).1 (n + 1) _).store = _
        have hname : src.name = d.name := hnm d (List.mem_cons_self _ _) src hres
        rcases ho : lookupSecret st (newDuplicateSecret src d.nspace).nspace
            (newDuplicateSecret src d.nspace).name with _ | o
        · have hst : (semUpdate st (newDuplicateSecret src d.nspace)).1 = st := by
            unfold semUpdate
            rw [ho]
          rw [hst]
          exact ih _ _ _ (fun x hx => hnm x (List.mem_cons_of_mem _ hx))
            (fun x hx => hno x (List.mem_cons_of_mem _ hx))
            (fun x hx => hkeys x (List.mem_cons_of_mem _ hx))
        · have hst : (semUpdate st (newDuplicateSecret src d.nspace)).1
              = st.map (fun t => if secretHasKey t (newDuplicateSecret src d.nspace).nspace
                  (newDuplicateSecret src d.nspace).name
                then newDuplicateSecret src d.nspace else t) := by
            rw [semUpdate_occupied (by rw [ho]; rfl)]
          have hpoint : ∀ t ∈ st,
              isSecretDuplicatorSource (if secretHasKey t
                  (newDuplicateSecret src d.nspace).nspace
                  (newDuplicateSecret src d.nspace).name
                then newDuplicateSecret src d.nspace else t)
                = isSecretDuplicatorSource t ∧
              (isSecretDuplicatorSource t = true →
                (if secretHasKey t (newDuplicateSecret src d.nspace).nspace
                  (newDuplicateSecret src d.nspace).name
                then newDuplicateSecret src d.nspace else t) = t) := by
            intro t ht
            by_cases hk : secretHasKey t (newDuplicateSecret src d.nspace).nspace
                (newDuplicateSecret src d.nspace).name = true
            · have hk2 := secretHasKey_iff.mp hk
              have htfalse : isSecretDuplicatorSource t = false := by
                apply hkeys d (List.mem_cons_self _ _) t ht hk2.1
                rw [hk2.2]
                exact hname
              constructor
              · rw [if_pos hk, htfalse, newDuplicateSecret_not_source]
              · intro hc
                exact absurd (htfalse.symm.trans hc) Bool.noConfusion
            · constructor
              · rw [if_neg hk]
              · intro _
                rw [if_neg hk]
          have hkeys2 : ∀ x ∈ rest, ∀ t ∈ (semUpdate st (newDuplicateSecret src d.nspace)).1,
              t.nspace = x.nspace → t.name = x.name → isSecretDuplicatorSource t = false := by
            intro x hx t ht h1 h2
            rcases semUpdate_members ht with ht2 | rfl
            · exact hkeys x (List.mem_cons_of_mem _ hx) t ht2 h1 h2
            · exact newDuplicateSecret_not_source src d.nspace
          rw [ih _ _ _ (fun x hx => hnm x (List.mem_cons_of_mem _ hx))
            (fun x hx => hno x (List.mem_cons_of_mem _ hx)) hkeys2]
          rw [hst]
          exact filter_eq_of_pointwise _ _ st hpoint

theorem dups_no_reintroduce (sources : List Secret)
    (hE : ∀ T ∈ sources, ∀ U ∈ sources,
      objectKeyString T.nspace T.name = objectKeyString U.nspace U.name → T = U)
    {D src0 : Secret}
    (hres0 : sourceSecretsLookup sources (fromAnnStr D) = some src0)
    (hne0 : ¬(D.data = src0.data)) :
    ∀ (dups : List Secret) (st : Store) (n : Nat) (re : Option ApiErr),
    D ∉ st → D ∉ (reconcileDuplicates pureEnv sources dups st n re).store := by
  intro dups
  induction dups with
  | nil => intro st n re h; exact h
  | cons d rest ih =>
    intro st n re hnotin
    rcases hres : sourceSecretsLookup sources (fromAnnStr d) with _ | src
    · rw [dups_cons_orphan sources d rest st n re hres]
      exact ih _ _ _ (fun hin => hnotin (semDelete_subset hin))
    · by_cases heq : d.data = src.data
      · rw [dups_cons_synced sources d rest st n re src hres heq]
        exact ih _ _ _ hnotin
      · rw [dups_cons_divergent_any sources d rest st n re src hres heq]
        show D ∉ (reconcileDuplicates pureEnv sources rest
          (semUpdate st (newDuplicateSecret src d.nspace)).1 (n + 1) _).store
        apply ih
        intro hin
        rcases semUpdate_members hin with hin2 | heqD
        · exact hnotin hin2
        · have hsrcmem : src ∈ sources := (sourceSecretsLookup_mem hres).1
          have hresD : sourceSecretsLookup sources (fromAnnStr D) = some src := by
            rw [heqD, fromAnnStr_mirror]
            exact sourceSecretsLookup_self hE hsrcmem
          rw [hres0] at hresD
          injection hresD with h2
          apply hne0
          rw [heqD, ← h2]
          rfl

theorem dups_expels (sources : List Secret)
    (hE : ∀ T ∈ sources, ∀ U ∈ sources,
      objectKeyString T.nspace T.name = objectKeyString U.nspace U.name → T = U)
    {D src0 : Secret}
    (hres0 : sourceSecretsLookup sources (fromAnnStr D) = some src0)
    (hne0 : ¬(D.data = src0.data))
    (hnm0 : src0.name = D.name) :
    ∀ (dups : List Secret) (st : Store) (n : Nat) (re : Option ApiErr),
    D ∈ dups → D ∉ (reconcileDuplicates pureEnv sources dups st n re).store := by
  intro dups
  induction dups with
  | nil => intro st n re h; cases h
  | cons d rest ih =>
    intro st n re hmem
    rcases List.mem_cons.mp hmem with rfl | hm2
    · rw [dups_cons_divergent_any sources D rest st n re src0 hres0 hne0]
      show D ∉ (reconcileDuplicates pureEnv sources rest
        (semUpdate st (newDuplicateSecret src0 D.nspace)).1 (n + 1) _).store
      apply dups_no_reintroduce sources hE hres0 hne0
      intro hin
      have hkeyD : secretHasKey D (newDuplicateSecret src0 D.nspace).nspace
          (newDuplicateSecret src0 D.nspace).name = true := by
        apply secretHasKey_iff.mpr
        exact ⟨rfl, hnm0.symm⟩
      unfold semUpdate at hin
      rcases ho : lookupSecret st (newDuplicateSecret src0 D.nspace).nspace
          (newDuplicateSecret src0 D.nspace).name with _ | o
      · rw [ho] at hin
        have : (lookupSecret st (newDuplicateSecret src0 D.nspace).nspace
            (newDuplicateSecret src0 D.nspace).name).isSome :=
          lookupSecret_isSome_of_mem hin rfl hnm0.symm
        rw [ho] at this
        cases this
      · rw [ho] at hin
        obtain ⟨t, ht, hft⟩ := List.mem_map.mp hin
        by_cases hk : secretHasKey t (newDuplicateSecret src0 D.nspace).nspace
            (newDuplicateSecret src0 D.nspace).name = true
        · rw [if_pos hk] at hft
          apply hne0
          rw [← hft]
          rfl
        · rw [if_neg hk] at hft
          rw [hft] at hk
          exact hk hkeyD
    · rcases hres : sourceSecretsLookup sources (fromAnnStr d) with _ | src
      · rw [dups_cons_orphan sources d rest st n re hres]
        exact ih _ _ _ hm2
      · by_cases heq : d.data = src.data
        · rw [dups_cons_synced sources d rest st n re src hres heq]
          exact ih _ _ _ hm2
        · rw [dups_cons_divergent_any sources d rest st n re src hres heq]
          exact ih _ _ _ hm2

theorem r1_filter_sources (store0 : Store) (nss : List Namespace) :
    List.filter isSecretDuplicatorSource
      (reconcileSources pureEnv (findNonTerminatingNamespaces nss)
        (findAllSourceSecrets store0) store0 2 none).store
      = findAllSourceSecrets store0 := by
  obtain ⟨d, hstore, hmem⟩ := sources_extends (findNonTerminatingNamespaces nss)
    (findAllSourceSecrets store0) store0 2 none
  rw [hstore, List.filter_append]
  have hd : List.filter isSecretDuplicatorSource d = [] := by
    rw [List.filter_eq_nil_iff]
    intro x hx
    obtain ⟨s, _, ns, _, rfl⟩ := hmem x hx
    simp [newDuplicateSecret_not_source]
  rw [hd, List.append_nil]
  rfl

/-! ### Claim C3 — idempotence -/

/-- C3 counterexample: the second cycle is not write-free in general.  With
store [srcS, orphanD] the first cycle deletes the orphaned occupant of
(n2, s) (the source pass had already found that slot occupied, so it
created nothing); the second cycle then finds (n2, s) empty and issues a
create — one write on the second run. -/
theorem c3_idempotence_counterexample :
    writeCount (runCycle (runCycle [srcS, orphanD] [nsN1, nsN2]).store [nsN1, nsN2]).log
      = 1 := by
  decide

/-- C3 (amended): the cycle is idempotent on well-formed stores in which
every classified duplicate resolves to a live source, carries its source's
name (both as the name component of its annotation and as its own object
name), is not itself marked as a source, and source identity strings are
unambiguous: starting from such a store, the run after the next issues
zero create, update and delete operations.  Without these conditions a
second run can write again (orphan deletion frees a slot the next source
pass refills; a name-mismatched duplicate re-issues its redirected update
every cycle). -/
theorem c3_idempotence_amended
    (store0 : Store) (nss : List Namespace)
    (hwf : wfStore store0)
    (hE : ∀ T ∈ findAllSourceSecrets store0, ∀ U ∈ findAllSourceSecrets store0,
      objectKeyString T.nspace T.name = objectKeyString U.nspace U.name → T = U)
    (hlive : ∀ d ∈ findAllDuplicateSecrets store0,
      sourceSecretsLookup (findAllSourceSecrets store0) (fromAnnStr d) ≠ none)
    (hnm : ∀ d ∈ findAllDuplicateSecrets store0, ∀ src,
      sourceSecretsLookup (findAllSourceSecrets store0) (fromAnnStr d) = some src →
      src.name = d.name)
    (hnodual : ∀ d ∈ findAllDuplicateSecrets store0, isSecretDuplicatorSource d = false) :
    writeCount (runCycle (runCycle store0 nss).store nss).log = 0 := by
  have hfilter1 : List.filter isSecretDuplicatorSource
      (reconcileSources pureEnv (findNonTerminatingNamespaces nss)
        (findAllSourceSecrets store0) store0 2 none).store
      = findAllSourceSecrets store0 := r1_filter_sources store0 nss
  have hkeys0 : ∀ d ∈ findAllDuplicateSecrets store0,
      ∀ t ∈ (reconcileSources pureEnv (findNonTerminatingNamespaces nss)
        (findAllSourceSecrets store0) store0 2 none).store,
      t.nspace = d.nspace → t.name = d.name → isSecretDuplicatorSource t = false := by
    intro d hd t ht h1 h2
    obtain ⟨dd, hstore, hmem⟩ := sources_extends (findNonTerminatingNamespaces nss)
      (findAllSourceSecrets store0) store0 2 none
    rw [hstore] at ht
    rcases List.mem_append.mp ht with ht1 | ht2
    · have hd0 : d ∈ store0 ∧ isSecretDuplicated d = true := List.mem_filter.mp hd
      have : t = d := wf_key_unique hwf ht1 hd0.1 ⟨h1, h2⟩
      rw [this]
      exact hnodual d hd
    · obtain ⟨s, _, ns, _, rfl⟩ := hmem t ht2
      exact newDuplicateSecret_not_source s ns.name
  have hsrc1 : findAllSourceSecrets (runCycle store0 nss).store
      = findAllSourceSecrets store0 := by
    rw [runCycle_store]
    show List.filter isSecretDuplicatorSource _ = _
    rw [dups_filter_sources (findAllSourceSecrets store0) (findAllDuplicateSecrets store0)
      _ _ none hnm hlive hkeys0]
    exact hfilter1
  have hslots : ∀ S ∈ findAllSourceSecrets store0,
      ∀ ns ∈ findNonTerminatingNamespaces nss,
      (lookupSecret (runCycle store0 nss).store ns.name S.name).isSome := by
    intro S hS ns hns
    rw [runCycle_store]
    apply dups_preserve_isSome (findAllSourceSecrets store0)
      (findAllDuplicateSecrets store0) _ _ none hlive
    exact sources_fill (findNonTerminatingNamespaces nss) (findAllSourceSecrets store0)
      store0 2 none hS ⟨ns, hns, rfl⟩
  have hsync : ∀ x ∈ findAllDuplicateSecrets (runCycle store0 nss).store,
      ∃ src, sourceSecretsLookup (findAllSourceSecrets store0) (fromAnnStr x) = some src ∧
        x.data = src.data := by
    intro x hx
    have hx0 : x ∈ (runCycle store0 nss).store ∧ isSecretDuplicated x = true :=
      List.mem_filter.mp hx
    have hx1 := hx0.1
    rw [runCycle_store] at hx1
    rcases dups_members (findAllSourceSecrets store0) (findAllDuplicateSecrets store0)
      _ _ none x hx1 with hinr1 | ⟨d2, src2, _, hres2, _, rfl⟩
    · obtain ⟨dd, hstore, hmem⟩ := sources_extends (findNonTerminatingNamespaces nss)
        (findAllSourceSecrets store0) store0 2 none
      rw [hstore] at hinr1
      rcases List.mem_append.mp hinr1 with ht1 | ht2
      · have hxd : x ∈ findAllDuplicateSecrets store0 := List.mem_filter.mpr ⟨ht1, hx0.2⟩
        rcases hres : sourceSecretsLookup (findAllSourceSecrets store0) (fromAnnStr x)
          with _ | src
        · exact absurd hres (hlive x hxd)
        · refine ⟨src, rfl, ?_⟩
          by_cases heq : x.data = src.data
          · exact heq
          · exfalso
            apply dups_expels (findAllSourceSecrets store0) hE hres heq
              (hnm x hxd src hres) (findAllDuplicateSecrets store0)
              (reconcileSources pureEnv (findNonTerminatingNamespaces nss)
                (findAllSourceSecrets store0) store0 2 none).store
              (reconcileSources pureEnv (findNonTerminatingNamespaces nss)
                (findAllSourceSecrets store0) store0 2 none).n none hxd
            rw [runCycle_store] at hx0
            exact hx0.1
      · obtain ⟨s, hs, ns, _, rfl⟩ := hmem x ht2
        refine ⟨s, ?_, rfl⟩
        rw [fromAnnStr_mirror]
        exact sourceSecretsLookup_self hE hs
    · have hsrcmem : src2 ∈ findAllSourceSecrets store0 := (sourceSecretsLookup_mem hres2).1
      refine ⟨src2, ?_, rfl⟩
      rw [fromAnnStr_mirror]
      exact sourceSecretsLookup_self hE hsrcmem
  obtain ⟨hnoop1, hnoop1log⟩ := sources_noop (findNonTerminatingNamespaces nss)
    (findAllSourceSecrets store0) (runCycle store0 nss).store 2 none hslots
  unfold writeCount
  rw [List.length_eq_zero, List.filter_eq_nil_iff]
  intro e he
  rw [runCycle_log, hsrc1] at he
  rw [hnoop1] at he
  obtain ⟨hnoop2, hnoop2log⟩ := dups_noop (findAllSourceSecrets store0)
    (findAllDuplicateSecrets (runCycle store0 nss).store) (runCycle store0 nss).store
    (reconcileSources pureEnv (findNonTerminatingNamespaces nss)
      (findAllSourceSecrets store0) (runCycle store0 nss).store 2 none).n none hsync
  rw [hnoop2log, List.append_nil] at he
  rcases List.mem_cons.mp he with rfl | he1
  · intro hc; cases hc
  rcases List.mem_cons.mp he1 with rfl | he2
  · intro hc; cases hc
  intro hc
  rw [hnoop1log e he2] at hc
  cases hc

/-- C3 witness: the amended idempotence theorem at the concrete store
[srcS] (no duplicates at all): the second cycle issues zero writes. -/
theorem c3_idempotence_witness :
    writeCount (runCycle (runCycle [srcS] [nsN1, nsN2]).store [nsN1, nsN2]).log = 0 :=
  c3_idempotence_amended [srcS] [nsN1, nsN2]
    (by decide) (by decide) (by decide) (by decide) (by decide)

/-! ### Error propagation (claim C8) -/

theorem sourcesOne_err_iff (env : Env) (source : Secret) :
    ∀ (nss : List Namespace) (st : Store) (n : Nat) (re : Option ApiErr),
    ((reconcileSourcesOne env source nss st n re).err).isSome
      = (re.isSome || (reconcileSourcesOne env source nss st n re).log.any nonBenign) := by
  intro nss
  induction nss with
  | nil =>
    intro st n re
    simp [reconcileSourcesOne]
  | cons ns rest ih =>
    intro st n re
    rcases hg : envGet env n st ns.name source.name with _ | e
    · simp only [reconcileSourcesOne, hg]
      rw [ih]
      simp [nonBenign, List.any_cons]
    · rcases e with _ | _ | _
      · simp only [reconcileSourcesOne, hg]
        rcases hc : (envCreate env (n + 1) st (newDuplicateSecret source ns.name)).2
          with _ | e2
        · simp only [hc]
          rw [ih]
          simp [nonBenign, List.any_cons]
        · rcases e2 with _ | _ | _
          · simp only [hc]
            rw [ih]
            simp [nonBenign, List.any_cons]
          · simp only [hc]
            rw [ih]
            simp [nonBenign, List.any_cons]
          · simp only [hc]
            rw [ih]
            simp [nonBenign, List.any_cons]
      · simp only [reconcileSourcesOne, hg]
        rw [ih]
        simp [nonBenign, List.any_cons]
      · simp only [reconcileSourcesOne, hg]
        rw [ih]
        simp [nonBenign, List.any_cons]

theorem sources_err_iff (env : Env) (nssList : List Namespace) :
    ∀ (sources : List Secret) (st : Store) (n : Nat) (re : Option ApiErr),
    ((reconcileSources env nssList sources st n re).err).isSome
      = (re.isSome || (reconcileSources env nssList sources st n re).log.any nonBenign) := by
  intro sources
  induction sources with
  | nil =>
    intro st n re
    simp [reconcileSources]
  | cons s rest ih =>
    intro st n re
    rw [sources_cons]
    show ((reconcileSources env nssList rest _ _ _).err).isSome = _
    rw [ih, sourcesOne_err_iff]
    simp [List.any_append, Bool.or_assoc]

theorem dups_err_iff (env : Env) (sources : List Secret) :
    ∀ (dups : List Secret) (st : Store) (n : Nat) (re : Option ApiErr),
    ((reconcileDuplicates env sources dups st n re).err).isSome
      = (re.isSome || (reconcileDuplicates env sources dups st n re).log.any nonBenign) := by
  intro dups
  induction dups with
  | nil =>
    intro st n re
    simp [reconcileDuplicates]
  | cons d rest ih =>
    intro st n re
    rcases hres : sourceSecretsLookup sources
        ((lookupAnn d.anns duplicatorFromAnnotationKey).getD "") with _ | src
    · simp only [reconcileDuplicates, hres]
      rcases hd2 : (envDelete env n st d.nspace d.name).2 with _ | e
      · simp only [hd2]
        rw [ih]
        simp [nonBenign, List.any_cons]
      · rcases e with _ | _ | _
        · simp only [hd2]
          rw [ih]
          simp [nonBenign, List.any_cons]
        · simp only [hd2]
          rw [ih]
          simp [nonBenign, List.any_cons]
        · simp only [hd2]
          rw [ih]
          simp [nonBenign, List.any_cons]
    · by_cases hb : (d.data == src.data) = true
      · simp only [reconcileDuplicates, hres]
        rw [if_pos hb]
        exact ih _ _ _
      · simp only [reconcileDuplicates, hres]
        rw [if_neg hb]
        rcases hu2 : (envUpdate env n st (newDuplicateSecret src d.nspace)).2 with _ | e
        · simp only [hu2]
          rw [ih]
          simp [nonBenign, List.any_cons]
        · simp only [hu2]
          rw [ih]
          simp [nonBenign, List.any_cons]

theorem Reconcile_main (env : Env) (store0 : Store) (nss : List Namespace)
    (h0 : env 0 = none) (h1 : env 1 = none) :
    Reconcile env store0 nss =
      ⟨(reconcileDuplicates env (findAllSourceSecrets store0)
          (findAllDuplicateSecrets store0)
          (reconcileSources env (findNonTerminatingNamespaces nss)
            (findAllSourceSecrets store0) store0 2 none).store
          (reconcileSources env (findNonTerminatingNamespaces nss)
            (findAllSourceSecrets store0) store0 2 none).n none).store,
        (Op.listSecrets, none) :: (Op.listNamespaces, none) ::
          ((reconcileSources env (findNonTerminatingNamespaces nss)
            (findAllSourceSecrets store0) store0 2 none).log ++
          (reconcileDuplicates env (findAllSourceSecrets store0)
            (findAllDuplicateSecrets store0)
            (reconcileSources env (findNonTerminatingNamespaces nss)
              (findAllSourceSecrets store0) store0 2 none).store
            (reconcileSources env (findNonTerminatingNamespaces nss)
              (findAllSourceSecrets store0) store0 2 none).n none).log),
        (match (reconcileDuplicates env (findAllSourceSecrets store0)
            (findAllDuplicateSecrets store0)
            (reconcileSources env (findNonTerminatingNamespaces nss)
              (findAllSourceSecrets store0) store0 2 none).store
            (reconcileSources env (findNonTerminatingNamespaces nss)
              (findAllSourceSecrets store0) store0 2 none).n none).err with
          | some e => some e
          | none => (reconcileSources env (findNonTerminatingNamespaces nss)
              (findAllSourceSecrets store0) store0 2 none).err).isSome⟩ := by
  simp only [Reconcile, h0, h1]

/-- C8: the cycle reports a non-nil error exactly when a listing or some
per-object operation failed for a non-benign reason (AlreadyExists on
create and NotFound on delete are swallowed; NotFound on the source-pass
Get feeds the create path), and a failure of either List aborts the cycle
with zero write operations issued. -/
theorem c8_error_taxonomy (env : Env) (store0 : Store) (nss : List Namespace) :
    ((Reconcile env store0 nss).err = true ↔
      (Reconcile env store0 nss).log.any nonBenign = true) ∧
    ((env 0).isSome = true → writeCount (Reconcile env store0 nss).log = 0) ∧
    (env 0 = none → (env 1).isSome = true →
      writeCount (Reconcile env store0 nss).log = 0) := by
  have hcomb : ∀ (x y : Option ApiErr),
      (match y with | some e => some e | none => x).isSome = (x.isSome || y.isSome) := by
    intro x y
    rcases y with _ | e
    · simp
    · simp
  rcases h0 : env 0 with _ | e0
  · rcases h1 : env 1 with _ | e1
    · rw [Reconcile_main env store0 nss h0 h1]
      refine ⟨?_, ?_, ?_⟩
      · show ((match (reconcileDuplicates env (findAllSourceSecrets store0)
            (findAllDuplicateSecrets store0)
            (reconcileSources env (findNonTerminatingNamespaces nss)
              (findAllSourceSecrets store0) store0 2 none).store
            (reconcileSources env (findNonTerminatingNamespaces nss)
              (findAllSourceSecrets store0) store0 2 none).n none).err with
          | some e => some e
          | none => (reconcileSources env (findNonTerminatingNamespaces nss)
              (findAllSourceSecrets store0) store0 2 none).err).isSome = true ↔ _)
        rw [hcomb]
        rw [sources_err_iff env (findNonTerminatingNamespaces nss)
          (findAllSourceSecrets store0) store0 2 none]
        rw [dups_err_iff env (findAllSourceSecrets store0)
          (findAllDuplicateSecrets store0)
          (reconcileSources env (findNonTerminatingNamespaces nss)
            (findAllSourceSecrets store0) store0 2 none).store
          (reconcileSources env (findNonTerminatingNamespaces nss)
            (findAllSourceSecrets store0) store0 2 none).n none]
        simp [List.any_cons, List.any_append, nonBenign]
      · intro hc
        exact Bool.noConfusion hc
      · intro _ hc
        exact Bool.noConfusion hc
    · refine ⟨?_, ?_, ?_⟩
      · simp [Reconcile, h0, h1, nonBenign]
      · intro hc
        exact Bool.noConfusion hc
      · intro _ _
        simp [Reconcile, h0, h1, writeCount, isWriteOp]
  · refine ⟨?_, ?_, ?_⟩
    · simp [Reconcile, h0, nonBenign]
    · intro _
      simp [Reconcile, h0, writeCount, isWriteOp]
    · intro hc
      cases hc

/-- C8 witness: the taxonomy theorem applied to an environment whose first
call (the secret List) fails: the cycle reports an error and issues zero
writes. -/
theorem c8_error_taxonomy_witness :
    (Reconcile failFirstEnv [srcS] [nsN1]).err = true ∧
    writeCount (Reconcile failFirstEnv [srcS] [nsN1]).log = 0 :=
  ⟨(c8_error_taxonomy failFirstEnv [srcS] [nsN1]).1.mpr (by decide),
   (c8_error_taxonomy failFirstEnv [srcS] [nsN1]).2.1 (by decide)⟩

end Duplicator
